import Mathlib

/-!
Verification of the MBS wheel-of-fortune equiper module (`src/equiper.ts`).

The development shallowly embeds the module's data model and operations:

* JavaScript objects become Lean structures; optional (`undefined`-able)
  fields become `Option`.
* The Bondage-Club collaborator functions that the module imports or calls
  (`AssetGet`, `getBaselineProperty`, `InventoryBlockedOrLimited`,
  `InventoryAllow`, `InventoryGroupIsBlocked`, `itemSetType`,
  `InventoryCraft`) are opaque externals; they are modelled as fields of an
  `Env` record that each embedded function takes as a parameter.
* Per-item observations made through collaborators
  (`InventoryItemHasEffect(item, "Lock")`, `InventoryGetLock(item)?.Asset`)
  are modelled as fields of the embedded `Item`.
* Functions that throw become `Except`-valued; where a claim is about the
  absence of side effects before a throw, the error value also carries the
  (unchanged) character so that state preservation is expressible.
-/

namespace MBS

/-- Property-bag values; the claims under study only need values as opaque
atoms, so strings suffice. -/
abbrev PropVal := String

/-- A JavaScript property bag (e.g. `ItemProperties`), modelled as an
insertion-ordered association list. -/
abbrev PropBag := List (String × PropVal)

/-- Lookup in a JS-style insertion-ordered map (first matching key). -/
def assocGet {α : Type} : List (String × α) → String → Option α
  | [], _ => none
  | (k', v) :: t, k => if k' = k then some v else assocGet t k

/-- JS `Map.set` / object-key assignment: an existing key is updated in
place (keeping its position), a new key is appended at the end. -/
def assocSet {α : Type} : List (String × α) → String → α → List (String × α)
  | [], k, v => [(k, v)]
  | (k', v') :: t, k, v =>
    if k' = k then (k, v) :: t else (k', v') :: assocSet t k v

/-- An asset group (equipment slot description): its name, category
(`"Item"`, `"Appearance"`, ...), and the flags used by the strip policy. -/
structure AssetGroup where
  Name : String
  Category : String
  AllowNone : Bool
  Underwear : Bool
deriving DecidableEq

/-- The static definition of an equippable item. `Block` is the optional
static list of group names this asset blocks. -/
structure Asset where
  Group : AssetGroup
  BodyCosplay : Bool
  Block : Option (List String)
  Description : String
  DefaultColor : List String
deriving DecidableEq

/-- The character's shared-settings bag; `BlockBodyCosplay` is optional
(`undefined` when unset). -/
structure SharedSettings where
  BlockBodyCosplay : Option Bool
deriving DecidableEq

/-- Crafted-item data; the equiper only inspects its `Property` string. -/
structure CraftingItem where
  Property : Option String
deriving DecidableEq

/-- The asset of a lock, as returned by `InventoryGetLock(item)?.Asset`. -/
structure LockAsset where
  OwnerOnly : Bool
  LoverOnly : Bool
deriving DecidableEq

/-- A live (worn) item instance.  `hasLockEffect` models the collaborator
observation `InventoryItemHasEffect(item, "Lock")` and `lock` models
`InventoryGetLock(item)?.Asset`; both are determined by the item, so they
are embedded as fields. -/
structure Item where
  Asset : Asset
  Craft : Option CraftingItem
  Property : Option PropBag
  Color : List String
  hasLockEffect : Bool
  lock : Option LockAsset
deriving DecidableEq

/-- The character model.  `IsPlayer`/`IsSimple` model the character-kind
predicates; `Appearance` is the ordered worn-item sequence that the module
mutates in place. -/
structure Character where
  AssetFamily : String
  MemberNumber : Nat
  IsPlayer : Bool
  IsSimple : Bool
  OnlineSharedSettings : Option SharedSettings
  Appearance : List Item
deriving DecidableEq

/-- The resolved cosplay-blocking flag:
`character.OnlineSharedSettings?.BlockBodyCosplay ?? true` (unset means
blocked). -/
def blockBodyCosplay (character : Character) : Bool :=
  match character.OnlineSharedSettings with
  | none => true
  | some s => s.BlockBodyCosplay.getD true

/-- Strip-level removal predicate factory, from `getStripCondition`
(src/equiper.ts:34).  Valid levels are the `StripLevel` enum values
`0`..`4`; the switch's `default` branch throws. -/
def getStripCondition (stripLevel : Nat) (character : Character) :
    Except String (Asset → Bool) :=
  match stripLevel with
  | 0 => .ok (fun _ => false)
  | 1 => .ok (fun asset =>
      asset.Group.AllowNone && !asset.BodyCosplay && !asset.Group.Underwear)
  | 2 => .ok (fun asset => asset.Group.AllowNone && !asset.BodyCosplay)
  | 3 => .ok (fun asset =>
      if blockBodyCosplay character then
        asset.Group.AllowNone && !asset.BodyCosplay
      else asset.Group.AllowNone)
  | 4 => .ok (fun asset =>
      if blockBodyCosplay character then
        asset.Group.AllowNone && !asset.BodyCosplay
      else true)
  | _ => .error "Invalid stripLevel value"

/-- The predicate produced by `getStripCondition`, as a total function
(`false` on the throwing branch); used to state properties of the returned
closure. -/
def stripPred (stripLevel : Nat) (character : Character) (asset : Asset) :
    Bool :=
  match getStripCondition stripLevel character with
  | .ok p => p asset
  | .error _ => false

/-- The strip routine `characterStrip` (src/equiper.ts:69): validates the character, then
removes every worn item of the `"Appearance"` category whose group allows
emptiness and which satisfies the strip condition.  The source's backwards
splice loop is an order-preserving filter.  A throw returns the character
unchanged (the argument is `Option` to model a JS `null` character). -/
def characterStrip (stripLevel : Nat) (character : Option Character) :
    Except (String × Option Character) Character :=
  match character with
  | none => .error ("Expected a simple or player character", none)
  | some c =>
    if !(c.IsSimple || c.IsPlayer) then
      .error ("Expected a simple or player character", some c)
    else
      match getStripCondition stripLevel c with
      | .error e => .error (e, some c)
      | .ok stripCondition =>
        .ok { c with Appearance := c.Appearance.filter (fun it =>
          !(it.Asset.Group.AllowNone
            && (it.Asset.Group.Category == "Appearance")
            && stripCondition it.Asset)) }

/-- The removal-eligibility test applied by `characterStrip` to a single
worn asset: group category and `AllowNone` gate plus the level predicate. -/
def stripEligible (stripLevel : Nat) (character : Character) (asset : Asset) :
    Bool :=
  asset.Group.AllowNone && (asset.Group.Category == "Appearance")
    && stripPred stripLevel character asset

/-- A character whose shared settings explicitly clear the cosplay block. -/
def flagFalseChar : Character :=
  { AssetFamily := "Female3DCG", MemberNumber := 1, IsPlayer := true,
    IsSimple := false,
    OnlineSharedSettings := some { BlockBodyCosplay := some false },
    Appearance := [] }

/-- A cosplay asset whose group does not allow empty occupancy. -/
def boundCosplayAsset : Asset :=
  { Group := { Name := "Pussy", Category := "Appearance", AllowNone := false,
               Underwear := false },
    BodyCosplay := true, Block := none, Description := "Pussy",
    DefaultColor := ["Default"] }

/-- A removable (strippable) cosplay asset. -/
def freeCosplayAsset : Asset :=
  { Group := { Name := "Wings", Category := "Appearance", AllowNone := true,
               Underwear := false },
    BodyCosplay := true, Block := none, Description := "Wings",
    DefaultColor := ["Default"] }

/-- The blocking graph of `itemsArgSort`: a JS `Map` from group name to the
node's blocked-group list (`node.block`, a `Set` iterated in insertion
order). -/
abbrev Graph := List (String × List String)

/-- The memoised node priorities (the mutable `node.priority` fields,
keyed by the node's group). -/
abbrev Memo := List (String × Int)

/-- JS `Math.max(...priorities)`; the call site only reaches it with a
non-empty list (the node's block set is non-empty there). -/
def mathMax : List Int → Int
  | [] => -1
  | x :: xs => xs.foldl max x

/-- First-occurrence deduplication, as performed by JS `Set` insertion. -/
def dedupFirst (seen : List String) : List String → List String
  | [] => []
  | x :: xs =>
    if x ∈ seen then dedupFirst seen xs else x :: dedupFirst (x :: seen) xs

/-- The faulty block-set construction at src/equiper.ts:144.  The source
spreads both block lists as ARGUMENTS of the `Set` constructor
(`new Set(...a, ...b)` instead of `new Set([...a, ...b])`): the constructor
consumes a single iterable argument, so only the first element of the
concatenation is used, and since it is a string it iterates into its
characters.  The resulting "block set" is the set of one-character strings
of the first blocked group name, or empty when both lists are empty. -/
def jsNewSetSpread (args : List String) : List String :=
  match args with
  | [] => []
  | s :: _ => dedupFirst [] (s.toList.map (fun c => String.singleton c))

/-- The resolver `itemsArgSortDFS` (src/equiper.ts:101): memoised depth-first priority
resolution.  `node` is the graph node paired with its key (`none` models
`graph.get(...)` returning `undefined`, priority −1).  The JS recursion is
unbounded; the embedding carries fuel, consumed only when descending into a
node with a non-empty block set — on an acyclic graph a fuel above the
node's topological rank is never exhausted.  The inner fold is the
`for (const group of node.block)` loop, recursing into `graph.get(group)`
and threading the memo. -/
def itemsArgSortDFS (g : Graph) :
    Nat → Memo → Option (String × List String) → Int × Memo
  | _, m, none => (-1, m)
  | 0, m, some (k, blk) =>
    match assocGet m k with
    | some p => (p, m)
    | none => if blk.isEmpty then (0, assocSet m k 0) else (-1, m)
  | fuel + 1, m, some (k, blk) =>
    match assocGet m k with
    | some p => (p, m)
    | none =>
      if blk.isEmpty then (0, assocSet m k 0)
      else
        let r := blk.foldl (fun acc b =>
          let s := itemsArgSortDFS g fuel acc.2
            ((assocGet g b).map (fun blk' => (b, blk')))
          (acc.1 ++ [s.1], s.2)) (([] : List Int), m)
        let p := 1 + mathMax r.1
        (p, assocSet r.2 k p)

/-- The child loop of `itemsArgSortDFS`, rephrased as plain recursion on
the block list (equal to the fold of the definition; used in proofs). -/
def itemsArgSortDFSChildren (g : Graph) (fuel : Nat) :
    Memo → List String → List Int × Memo
  | m, [] => ([], m)
  | m, b :: bs =>
    let r := itemsArgSortDFS g fuel m ((assocGet g b).map (fun blk => (b, blk)))
    let r2 := itemsArgSortDFSChildren g fuel r.2 bs
    (r.1 :: r2.1, r2.2)

/-- Memo-free reference recursion: the priority value that the DFS assigns
to a node, with explicit fuel (used only in proofs). -/
def prioF (g : Graph) : Nat → String → Int
  | 0, k =>
    match assocGet g k with
    | none => -1
    | some blk => if blk.isEmpty then 0 else -1
  | fuel + 1, k =>
    match assocGet g k with
    | none => -1
    | some blk =>
      if blk.isEmpty then 0
      else 1 + mathMax (blk.map (fun b => prioF g fuel b))

/-- The traversal loop of `itemsArgSort`: run the DFS from every graph node
in insertion order, threading the memoised priorities. -/
def itemsArgSortTraverse (g : Graph) (fuel : Nat) :
    Memo → List (String × List String) → Memo
  | m, [] => m
  | m, (k, blk) :: rest =>
    itemsArgSortTraverse g fuel (itemsArgSortDFS g fuel m (some (k, blk))).2 rest

/-- The minimal item representation consumed by `itemsArgSort`
(`SimpleItem` in the source).  The source field `Type` is named `ItemType`
here because `Type` is reserved in Lean. -/
structure SimpleItem where
  Name : String
  Group : String
  ItemType : Option String
deriving DecidableEq

/-- The property bag returned by the external `getBaselineProperty`
collaborator; the equiper reads only its optional `Block` list. -/
structure BaselineProperty where
  Block : Option (List String)
deriving DecidableEq

/-- The external collaborators of the module, modelled as an explicit
environment record (see the module docstring). -/
structure Env where
  AssetGet : String → String → String → Option Asset
  getBaselineProperty : Asset → Character → Option String → BaselineProperty
  InventoryBlockedOrLimited : Character → Asset → Bool
  InventoryAllow : Character → Asset → Bool
  InventoryGroupIsBlocked : Character → String → Bool
  itemSetType : Character → Item → Option String → Item
  InventoryCraft : Character → String → Option CraftingItem → Item → Item

/-- The graph-building loop of `itemsArgSort` (src/equiper.ts:134): resolve
each descriptor's asset (an unknown asset throws), skip descriptors whose
group is not of the `"Item"` category, and store a node whose block set is
`jsNewSetSpread` of the static and baseline-property block lists (the
faulty argument-spread construction of the source). -/
def buildGraphAux (env : Env) (character : Character) :
    List SimpleItem → Graph → Except String Graph
  | [], g => .ok g
  | it :: rest, g =>
    match env.AssetGet character.AssetFamily it.Group it.Name with
    | none => .error "Unknown asset"
    | some asset =>
      if asset.Group.Category != "Item" then buildGraphAux env character rest g
      else
        let property := env.getBaselineProperty asset character it.ItemType
        let node :=
          jsNewSetSpread ((asset.Block.getD []) ++ (property.Block.getD []))
        buildGraphAux env character rest (assocSet g it.Group node)

/-- Entry point of the graph-building loop, starting from the empty map. -/
def buildGraph (env : Env) (itemList : List SimpleItem)
    (character : Character) : Except String Graph :=
  buildGraphAux env character itemList []

/-- The sorter `itemsArgSort` (src/equiper.ts:125): build the blocking graph
(the source's `Array.isArray` guard always passes for a Lean list), resolve
all priorities with the memoised DFS, and return the group-to-priority
record in insertion order.  A record value of `none` mirrors a JS
`node.priority` left `undefined` (unreachable on acyclic graphs).  The DFS
fuel is the number of graph nodes, which suffices on every acyclic graph
since priorities along a blocking chain visit pairwise distinct nodes. -/
def itemsArgSort (env : Env) (itemList : List SimpleItem)
    (character : Character) : Except String (List (String × Option Int)) := do
  let g ← buildGraph env itemList character
  let m := itemsArgSortTraverse g g.length [] g
  pure (g.map (fun p => (p.1, assocGet m p.1)))

/-- Key uniqueness of a JS-style map (holds for maps built with
`assocSet`). -/
def keysNodup {α : Type} (m : List (String × α)) : Prop :=
  (m.map Prod.fst).Nodup

/-- Acyclicity of the blocking graph, expressed through a topological rank:
every edge into a blocked node that is present in the graph strictly
decreases the rank. -/
def EdgeDecreasing (g : Graph) (rank : String → Nat) : Prop :=
  ∀ k blk, assocGet g k = some blk →
    ∀ b ∈ blk, ∀ blk', assocGet g b = some blk' → rank b < rank k

/-- The reference priority of a node (enough fuel for its rank). -/
def prioVal (g : Graph) (rank : String → Nat) (k : String) : Int :=
  prioF g (rank k + 1) k

/-- A memo is good when every stored priority agrees with the reference
recursion. -/
def MemoGood (g : Graph) (rank : String → Nat) (m : Memo) : Prop :=
  ∀ k p, assocGet m k = some p → p = prioVal g rank k

/-- A small concrete catalog: group `"A"` statically blocks `"B"`, group
`"B"` blocks nothing; both are `"Item"`-category groups.  (The group names
are single characters so that the faulty character-splitting set
construction still produces the intended one-element block sets.) -/
def dfsTestEnv : Env :=
  { AssetGet := fun _ grp _ =>
      if grp = "A" then
        some { Group := { Name := "A", Category := "Item", AllowNone := false,
                          Underwear := false },
               BodyCosplay := false, Block := some ["B"],
               Description := "Asset A", DefaultColor := [] }
      else if grp = "B" then
        some { Group := { Name := "B", Category := "Item", AllowNone := false,
                          Underwear := false },
               BodyCosplay := false, Block := none,
               Description := "Asset B", DefaultColor := [] }
      else none,
    getBaselineProperty := fun _ _ _ => { Block := none },
    InventoryBlockedOrLimited := fun _ _ => false,
    InventoryAllow := fun _ _ => true,
    InventoryGroupIsBlocked := fun _ _ => false,
    itemSetType := fun _ it _ => it,
    InventoryCraft := fun _ _ _ it => it }

/-- Descriptors for the two test groups, `"A"` before `"B"`. -/
def dfsTestItems : List SimpleItem :=
  [{ Name := "a", Group := "A", ItemType := none },
   { Name := "b", Group := "B", ItemType := none }]

/-- The priority record `itemsArgSort` computes on `dfsTestItems`. -/
def dfsTestRecord : List (String × Option Int) :=
  [("A", some 1), ("B", some 0)]

/-- A topological rank for the test graph. -/
def dfsTestRank : String → Nat := fun k => if k = "A" then 1 else 0

/-- A catalog exercising the block-set construction with realistic
multi-character group names: the asset statically blocks `"ItemDevices"`
and its baseline property blocks `"ItemHands"`. -/
def spreadBugEnv : Env :=
  { AssetGet := fun _ grp _ =>
      if grp = "ItemArms" then
        some { Group := { Name := "ItemArms", Category := "Item",
                          AllowNone := false, Underwear := false },
               BodyCosplay := false, Block := some ["ItemDevices"],
               Description := "Heavy cuffs", DefaultColor := [] }
      else none,
    getBaselineProperty := fun _ _ _ => { Block := some ["ItemHands"] },
    InventoryBlockedOrLimited := fun _ _ => false,
    InventoryAllow := fun _ _ => true,
    InventoryGroupIsBlocked := fun _ _ => false,
    itemSetType := fun _ it _ => it,
    InventoryCraft := fun _ _ _ it => it }

/-- A JS number as returned by the sort callback: an integer priority or
`Infinity`. -/
inductive JSNum where
  | val (i : Int)
  | inf
deriving DecidableEq

/-- Whether a JS comparator result is strictly negative (`Infinity` is
not). -/
def JSNum.isNegative : JSNum → Bool
  | .val i => i < 0
  | .inf => false

/-- A full wheel-of-fortune item descriptor (stub type `FortuneWheelItem`).
`Equip` is modelled by the Boolean the optional callback would return;
`ItemCallback` receives the live instance and the character and may mutate
both; the source field `Type` is named `ItemType` (reserved word). -/
structure FortuneWheelItem where
  Name : String
  Group : String
  Color : Option (List String)
  Equip : Option Bool
  Craft : Option CraftingItem
  ItemCallback : Option (Item → Character → Item × Character)
  Custom : Bool
  ItemType : Option String
  Property : PropBag

/-- The projection of a descriptor to the fields `itemsArgSort` reads. -/
def FortuneWheelItem.toSimpleItem (it : FortuneWheelItem) : SimpleItem :=
  { Name := it.Name, Group := it.Group, ItemType := it.ItemType }

/-- Stable insertion under a JS comparator: the element is placed before
the first earlier element against which the comparator is strictly
negative.  This models the binary-insertion placement of the TimSort used
by `Array.prototype.sort` in mainstream engines; in particular, a
comparator that never returns a negative number leaves the array in its
original order, which is exactly what happens at the failing input below
(ECMA-262 leaves the order implementation-defined for inconsistent
comparators such as the one the source passes). -/
def jsInsertSorted {α : Type} (cmp : α → α → JSNum) (x : α) :
    List α → List α
  | [] => [x]
  | y :: ys =>
    if (cmp x y).isNegative then x :: y :: ys else y :: jsInsertSorted cmp x ys

/-- The builtin `Array.prototype.sort` modelled as a stable insertion sort over the
given comparator. -/
def jsArraySort {α : Type} (cmp : α → α → JSNum) (l : List α) : List α :=
  l.foldl (fun acc x => jsInsertSorted cmp x acc) []

/-- The wrapper `fortuneItemsSort` (src/equiper.ts:168): computes the priority record
and sorts the item list with
`itemList.sort(item => sortRecord[item.Group] ?? Infinity)`.  The source
passes a ONE-argument key function where `Array.prototype.sort` expects a
two-argument comparator, so the embedded comparator returns the first
item's resolved priority and ignores its second argument (a stored
`undefined` priority and an absent slot both fall back to `Infinity`
through `??`). -/
def fortuneItemsSort (env : Env) (itemList : List FortuneWheelItem)
    (character : Character) : Except String (List FortuneWheelItem) :=
  match itemsArgSort env (itemList.map FortuneWheelItem.toSimpleItem)
      character with
  | .error e => .error e
  | .ok sortRecord =>
    .ok (jsArraySort (fun item _ =>
      match assocGet sortRecord item.Group with
      | some (some p) => .val p
      | some none => .inf
      | none => .inf) itemList)

/-- The test descriptor occupying blocking group `"A"` (priority 1). -/
def sortBugItemA : FortuneWheelItem :=
  { Name := "a", Group := "A", Color := none, Equip := none, Craft := none,
    ItemCallback := none, Custom := false, ItemType := none, Property := [] }

/-- The test descriptor occupying blocked group `"B"` (priority 0). -/
def sortBugItemB : FortuneWheelItem :=
  { Name := "b", Group := "B", Color := none, Equip := none, Craft := none,
    ItemCallback := none, Custom := false, ItemType := none, Property := [] }

/-- The test `item.Craft?.Property === "Decoy"`. -/
def isDecoyCraft (craft : Option CraftingItem) : Bool :=
  match craft with
  | some c => c.Property == some "Decoy"
  | none => false

/-- The predicate `canUnlock` (src/equiper.ts:180): an item with no lock effect is
always removable; a locked item with a `"Decoy"` crafted property is
removable exactly when its lock asset is present and neither owner-only
nor lover-only (an absent lock asset yields `false`); any other locked
item is not removable. -/
def canUnlock (item : Item) : Bool :=
  let lock := item.lock
  if !item.hasLockEffect then true
  else if isDecoyCraft item.Craft then
    match lock with
    | none => false
    | some l => !l.OwnerOnly && !l.LoverOnly
  else false

/-- A Decoy-crafted item with a lock effect whose lock asset is absent. -/
def decoyNoLockItem : Item :=
  { Asset := boundCosplayAsset, Craft := some { Property := some "Decoy" },
    Property := none, Color := [], hasLockEffect := true, lock := none }

/-- Whether a lock asset is present and neither owner-only nor lover-only
(the removability test for Decoy-crafted locked items). -/
def lockNotOwnerLover : Option LockAsset → Bool
  | none => false
  | some l => !l.OwnerOnly && !l.LoverOnly

/-- A JS argument that may fail `Array.isArray`; `notArray` carries the
`typeof` string used in the thrown message. -/
inductive JSArg (α : Type) where
  | arr (l : α)
  | notArray (typeName : String)

/-- The collaborator `InventoryGet`: the worn item of a group (the first appearance entry
whose asset belongs to the group). -/
def InventoryGet (character : Character) (group : String) : Option Item :=
  character.Appearance.find? (fun it => it.Asset.Group.Name == group)

/-- The collaborator `InventoryRemove` (without refresh): delete the group's occupant. -/
def InventoryRemove (character : Character) (group : String) : Character :=
  { character with Appearance :=
      character.Appearance.filter (fun it => !(it.Asset.Group.Name == group)) }

/-- Modelled collaborator `CharacterAppearanceSetItem`: replace the
group's occupant with a fresh, unlocked, property-less instance of the
asset in the given colour (appended at the end of the appearance). -/
def CharacterAppearanceSetItem (character : Character) (group : String)
    (asset : Asset) (color : List String) : Character :=
  { character with Appearance :=
      character.Appearance.filter (fun it => !(it.Asset.Group.Name == group))
        ++ [{ Asset := asset, Craft := none, Property := none, Color := color,
              hasLockEffect := false, lock := none }] }

/-- Write an updated live instance back into its slot (models the JS
in-place mutation of the aliased item object). -/
def setSlotItem (character : Character) (group : String) (item : Item) :
    Character :=
  { character with Appearance := character.Appearance.map (fun it =>
      if it.Asset.Group.Name == group then item else it) }

/-- The collaborator `deepCopy` of a property bag; value semantics make the copy structural
(the copy shares no mutable state with the original, which is what the
source call guarantees for the JS objects). -/
def deepCopy (bag : PropBag) : PropBag := bag

/-- JS `Object.assign(target, src)`: write each key of `src` into
`target` in order, updating existing keys in place and appending new
ones. -/
def objectAssign (target src : PropBag) : PropBag :=
  src.foldl (fun t kv => assocSet t kv.1 kv.2) target

/-- Lines 273–277 of the equip pass: install a deep copy of the declared
property bag when the instance has none, otherwise merge the declared bag
onto the existing one. -/
def mergeItemProperty (declared : PropBag) : Option PropBag → PropBag
  | none => deepCopy declared
  | some p => objectAssign p (deepCopy declared)

/-- One step of the clearing pass (first pass, src/equiper.ts:220): state
is (character, failure record, callback-suppressed groups).  An unknown
asset records `["Unknown asset"]` under the item name; a false equip
predicate suppresses the group; an empty slot does nothing; otherwise the
four removal blockers are evaluated against the occupant, recording the
names of those that fired under the asset description, and the occupant is
removed only when none fired. -/
def fortuneWheelEquipFirstPass (env : Env)
    (st : Character × List (String × List String) × List String)
    (item : FortuneWheelItem) :
    Character × List (String × List String) × List String :=
  let ch := st.1
  let failRec := st.2.1
  let cbOut := st.2.2
  match env.AssetGet ch.AssetFamily item.Group item.Name with
  | none => (ch, assocSet failRec item.Name ["Unknown asset"], cbOut)
  | some asset =>
    let equip := item.Equip.getD true
    if !equip then
      (ch, failRec, if item.Group ∈ cbOut then cbOut else cbOut ++ [item.Group])
    else
      match InventoryGet ch item.Group with
      | none => (ch, failRec, cbOut)
      | some oldItem =>
        let equipFailure :=
          [("Locked item equiped", !canUnlock oldItem),
           ("InventoryBlockedOrLimited", env.InventoryBlockedOrLimited ch asset),
           ("InventoryAllow", !env.InventoryAllow ch asset),
           ("InventoryGroupIsBlocked",
             env.InventoryGroupIsBlocked ch item.Group)].filter
            (fun t => t.2)
        if equipFailure.length ≠ 0 then
          (ch, assocSet failRec asset.Description (equipFailure.map (fun t => t.1)),
           cbOut)
        else (InventoryRemove ch item.Group, failRec, cbOut)

/-- One step of the equip pass (second pass, src/equiper.ts:252): skip when
the asset is unknown, the description appears in the failure record, or
the group was callback-suppressed; otherwise install the asset (declared
colour, else default), copy crafting data, apply the type-setting and
inventory-craft collaborators, merge the declared properties, and run the
item and global callbacks. -/
def fortuneWheelEquipSecondPass (env : Env)
    (failRec : List (String × List String)) (cbOut : List String)
    (globalCallback : Option (Item → Character → Item × Character))
    (ch : Character) (item : FortuneWheelItem) : Character :=
  match env.AssetGet ch.AssetFamily item.Group item.Name with
  | none => ch
  | some asset =>
    if (assocGet failRec asset.Description).isSome = true ∨ item.Group ∈ cbOut
    then ch
    else
      let color := match item.Color with
        | some c => c
        | none => asset.DefaultColor
      let ch1 := CharacterAppearanceSetItem ch item.Group asset color
      match InventoryGet ch1 item.Group with
      | none => ch1
      | some newItem0 =>
        let newItem1 := match item.Craft with
          | some c => { newItem0 with Craft := some c }
          | none => newItem0
        let newItem2 := env.itemSetType ch1 newItem1 item.ItemType
        let newItem3 := env.InventoryCraft ch1 item.Group item.Craft newItem2
        let newItem4 := { newItem3 with
          Property := some (mergeItemProperty item.Property newItem3.Property) }
        let ch2 := setSlotItem ch1 item.Group newItem4
        let r5 := match item.ItemCallback with
          | some cb => cb newItem4 ch2
          | none => (newItem4, ch2)
        let ch4 := setSlotItem r5.2 item.Group r5.1
        let r6 := match globalCallback with
          | some cb => cb r5.1 ch4
          | none => (r5.1, ch4)
        setSlotItem r6.2 item.Group r6.1

/-- The transaction `fortuneWheelEquip` (src/equiper.ts:200): validate the list, strip,
apply the pre-run callback, run the clearing pass and then the equip pass
in the caller's list order, and return the final character together with
the failure record.  A throw carries the character unchanged; the final
refresh/notification/logging collaborators are pure side effects outside
the model. -/
def fortuneWheelEquip (env : Env) (name : String)
    (itemListArg : JSArg (List FortuneWheelItem)) (stripLevel : Nat)
    (globalCallback : Option (Item → Character → Item × Character))
    (preRunCallback : Option (List FortuneWheelItem → Character →
      List FortuneWheelItem))
    (character : Character) :
    Except (String × Character) (Character × List (String × List String)) :=
  match itemListArg with
  | .notArray typeName =>
    .error ("Invalid itemList type: " ++ typeName, character)
  | .arr itemList0 =>
    match characterStrip stripLevel (some character) with
    | .error e => .error (e.1, e.2.getD character)
    | .ok ch0 =>
      let itemList := match preRunCallback with
        | some f => f itemList0 ch0
        | none => itemList0
      let st := itemList.foldl (fortuneWheelEquipFirstPass env) (ch0, [], [])
      let ch2 := itemList.foldl
        (fortuneWheelEquipSecondPass env st.2.1 st.2.2 globalCallback) st.1
      .ok (ch2, st.2.1)

/-- A character that is neither a simple nor a player character. -/
def npcChar : Character :=
  { AssetFamily := "Female3DCG", MemberNumber := 7, IsPlayer := false,
    IsSimple := false, OnlineSharedSettings := none, Appearance := [] }

/-- The failure-record key the clearing pass would use for a descriptor:
the resolved asset's description, or the raw item name when the asset is
unknown. -/
def recKey (env : Env) (fam : String) (Z : FortuneWheelItem) : String :=
  match env.AssetGet fam Z.Group Z.Name with
  | none => Z.Name
  | some a => a.Description

/-- The equip pass skips a descriptor: its asset is unknown, or its
description is recorded in the failure record, or its group was
callback-suppressed. -/
def skipSecond (env : Env) (fam : String)
    (fr : List (String × List String)) (cb : List String)
    (Z : FortuneWheelItem) : Prop :=
  match env.AssetGet fam Z.Group Z.Name with
  | none => True
  | some a => (assocGet fr a.Description).isSome = true ∨ Z.Group ∈ cb

/-- The to-be-equipped cuffs asset of the locked-slot scenario. -/
def lockAssetY : Asset :=
  { Group := { Name := "ItemArms", Category := "Item", AllowNone := false,
               Underwear := false },
    BodyCosplay := false, Block := none, Description := "Shiny cuffs",
    DefaultColor := ["Default"] }

/-- The locked occupant of the `"ItemArms"` slot (a lock effect with no
Decoy craft, hence not removable). -/
def lockTestX : Item :=
  { Asset := { Group := { Name := "ItemArms", Category := "Item",
                          AllowNone := false, Underwear := false },
               BodyCosplay := false, Block := none,
               Description := "Old rope", DefaultColor := [] },
    Craft := none, Property := none, Color := [], hasLockEffect := true,
    lock := none }

/-- The player character wearing the locked occupant. -/
def lockTestChar : Character :=
  { AssetFamily := "Female3DCG", MemberNumber := 3, IsPlayer := true,
    IsSimple := false, OnlineSharedSettings := none,
    Appearance := [lockTestX] }

/-- A catalog resolving only the cuffs, with all other blockers clear. -/
def lockTestEnv : Env :=
  { AssetGet := fun _ grp _ =>
      if grp = "ItemArms" then some lockAssetY else none,
    getBaselineProperty := fun _ _ _ => { Block := none },
    InventoryBlockedOrLimited := fun _ _ => false,
    InventoryAllow := fun _ _ => true,
    InventoryGroupIsBlocked := fun _ _ => false,
    itemSetType := fun _ it _ => it,
    InventoryCraft := fun _ _ _ it => it }

/-- The wheel item targeting the locked slot. -/
def lockTestY : FortuneWheelItem :=
  { Name := "cuffs", Group := "ItemArms", Color := none, Equip := none,
    Craft := none, ItemCallback := none, Custom := false, ItemType := none,
    Property := [] }

/-- C5 counterexample: at strip level Cosplay (3), a cosplay asset whose
group forbids empty occupancy is not removal-eligible even though the
character's block-cosplay flag is false, refuting "eligible exactly when
the flag is false" both for the raw predicate and for the eligibility test
applied by `characterStrip`. -/
theorem stripCosplay_iff_flag_cex :
    boundCosplayAsset.BodyCosplay = true
    ∧ ¬((stripPred 3 flagFalseChar boundCosplayAsset = true)
          ↔ (blockBodyCosplay flagFalseChar = false))
    ∧ ¬((stripEligible 3 flagFalseChar boundCosplayAsset = true)
          ↔ (blockBodyCosplay flagFalseChar = false)) := by
  decide

/-- C5 (amended): strip level None (0) never marks a worn asset; level
Clothes (1) never marks underwear nor cosplay; the cosplay flag defaults to
blocked when unset; and at levels Cosplay (3) and All (4) a cosplay asset
whose group allows empty occupancy is marked exactly when the character's
resolved block-cosplay flag is false. -/
theorem stripPred_levels (ch : Character) (a : Asset) :
    stripPred 0 ch a = false
    ∧ (a.Group.Underwear = true → stripPred 1 ch a = false)
    ∧ (a.BodyCosplay = true → stripPred 1 ch a = false)
    ∧ (ch.OnlineSharedSettings = none → blockBodyCosplay ch = true)
    ∧ (a.BodyCosplay = true → a.Group.AllowNone = true →
        ((stripPred 3 ch a = true ↔ blockBodyCosplay ch = false)
         ∧ (stripPred 4 ch a = true ↔ blockBodyCosplay ch = false))) := by
  refine ⟨rfl, ?_, ?_, ?_, ?_⟩
  · intro h; simp [stripPred, getStripCondition, h]
  · intro h; simp [stripPred, getStripCondition, h]
  · intro h; simp [blockBodyCosplay, h]
  · intro hc ha
    constructor <;>
      (cases hbb : blockBodyCosplay ch <;>
        simp [stripPred, getStripCondition, hbb, hc, ha])

/-- Witness for `stripPred_levels` at concrete inputs. -/
theorem stripPred_levels_witness :
    stripPred 0 flagFalseChar boundCosplayAsset = false
    ∧ (stripPred 3 flagFalseChar freeCosplayAsset = true
        ↔ blockBodyCosplay flagFalseChar = false) :=
  ⟨(stripPred_levels flagFalseChar boundCosplayAsset).1,
   ((stripPred_levels flagFalseChar freeCosplayAsset).2.2.2.2 rfl rfl).1⟩

/-- C9: removal eligibility under `getStripCondition` is monotone in the
strip level: whatever the level-`lvl` predicate marks, every valid higher
level marks as well (same character, same asset). -/
theorem stripPred_monotone (lvl lvl' : Nat) (ch : Character) (a : Asset)
    (h1 : lvl ≤ lvl') (h2 : lvl' ≤ 4)
    (h3 : stripPred lvl ch a = true) :
    stripPred lvl' ch a = true := by
  interval_cases lvl' <;> interval_cases lvl <;>
    cases hbb : blockBodyCosplay ch <;>
    simp_all [stripPred, getStripCondition]

/-- Witness for `stripPred_monotone`: a plain clothing asset marked at
level Clothes (1) is still marked at level All (4). -/
theorem stripPred_monotone_witness :
    stripPred 1 flagFalseChar
      { Group := { Name := "Cloth", Category := "Appearance",
                   AllowNone := true, Underwear := false },
        BodyCosplay := false, Block := none, Description := "Dress",
        DefaultColor := ["Default"] } = true
    ∧ stripPred 4 flagFalseChar
      { Group := { Name := "Cloth", Category := "Appearance",
                   AllowNone := true, Underwear := false },
        BodyCosplay := false, Block := none, Description := "Dress",
        DefaultColor := ["Default"] } = true :=
  ⟨by decide,
   stripPred_monotone 1 4 flagFalseChar
     { Group := { Name := "Cloth", Category := "Appearance",
                  AllowNone := true, Underwear := false },
       BodyCosplay := false, Block := none, Description := "Dress",
       DefaultColor := ["Default"] }
     (by decide) (by decide) (by decide)⟩

/-- C10: at strip levels None (0), Clothes (1) and Underwear (2) the
predicate returned by `getStripCondition` does not depend on the character:
any two characters yield the same verdict on every asset. -/
theorem stripPred_character_independent (lvl : Nat) (h : lvl ≤ 2)
    (ch1 ch2 : Character) (a : Asset) :
    stripPred lvl ch1 a = stripPred lvl ch2 a := by
  interval_cases lvl <;> rfl

/-- Witness for `stripPred_character_independent`: two characters with
opposite cosplay flags agree at level Clothes. -/
theorem stripPred_character_independent_witness :
    stripPred 1 flagFalseChar boundCosplayAsset
      = stripPred 1
          { AssetFamily := "Female3DCG", MemberNumber := 2, IsPlayer := false,
            IsSimple := true, OnlineSharedSettings := none, Appearance := [] }
          boundCosplayAsset :=
  stripPred_character_independent 1 (by decide) flagFalseChar
    { AssetFamily := "Female3DCG", MemberNumber := 2, IsPlayer := false,
      IsSimple := true, OnlineSharedSettings := none, Appearance := [] }
    boundCosplayAsset

/-- The child fold of `itemsArgSortDFS` computes `itemsArgSortDFSChildren`
(with the priorities accumulated on the left). -/
theorem itemsArgSortDFS_foldl (g : Graph) (fuel : Nat) :
    ∀ (bs : List String) (acc : List Int) (m : Memo),
      bs.foldl (fun acc b =>
          let s := itemsArgSortDFS g fuel acc.2
            ((assocGet g b).map (fun blk' => (b, blk')))
          (acc.1 ++ [s.1], s.2)) (acc, m)
        = (acc ++ (itemsArgSortDFSChildren g fuel m bs).1,
           (itemsArgSortDFSChildren g fuel m bs).2) := by
  intro bs
  induction bs with
  | nil => intro acc m; simp [itemsArgSortDFSChildren]
  | cons b bs ihb =>
    intro acc m
    simp only [List.foldl_cons, itemsArgSortDFSChildren, ihb, List.append_assoc,
      List.singleton_append]

/-- Lookup after a JS-style map update: the updated key reads the new
value, every other key is unaffected. -/
theorem assocGet_assocSet {α : Type} (m : List (String × α)) (k k' : String)
    (v : α) :
    assocGet (assocSet m k v) k' = if k = k' then some v else assocGet m k' := by
  induction m with
  | nil =>
    by_cases hk : k = k' <;> simp [assocSet, assocGet, hk]
  | cons h t ih =>
    obtain ⟨k0, v0⟩ := h
    by_cases hk0 : k0 = k
    · subst hk0
      by_cases hk' : k0 = k' <;> simp [assocSet, assocGet, hk']
    · by_cases hk0' : k0 = k' <;> by_cases hkk' : k = k' <;>
        simp_all [assocSet, assocGet, hk0]

/-- A successful lookup exhibits an actual entry of the map. -/
theorem assocGet_mem {α : Type} {m : List (String × α)} {k : String} {v : α}
    (h : assocGet m k = some v) : (k, v) ∈ m := by
  induction m with
  | nil => simp [assocGet] at h
  | cons hd t ih =>
    obtain ⟨k0, v0⟩ := hd
    by_cases hk : k0 = k
    · subst hk
      simp [assocGet] at h
      simp [h]
    · simp [assocGet, hk] at h
      simp [ih h]

/-- Keys after an update: the old keys plus the updated one. -/
theorem mem_keys_assocSet {α : Type} (m : List (String × α)) (k a : String)
    (v : α) :
    a ∈ (assocSet m k v).map Prod.fst ↔ a ∈ m.map Prod.fst ∨ a = k := by
  induction m with
  | nil => simp [assocSet]
  | cons hd t ih =>
    obtain ⟨k0, v0⟩ := hd
    by_cases hk : k0 = k
    · subst hk
      simp [assocSet]
      tauto
    · simp [assocSet, hk, ih]
      tauto

/-- Updating with `assocSet` preserves key uniqueness. -/
theorem keysNodup_assocSet {α : Type} (m : List (String × α)) (k : String)
    (v : α) (h : keysNodup m) : keysNodup (assocSet m k v) := by
  induction m with
  | nil => simp [keysNodup, assocSet]
  | cons hd t ih =>
    obtain ⟨k0, v0⟩ := hd
    rw [keysNodup, List.map_cons, List.nodup_cons] at h
    by_cases hk : k0 = k
    · subst hk
      have hset : assocSet ((k0, v0) :: t) k0 v = (k0, v) :: t := by
        simp [assocSet]
      rw [hset, keysNodup, List.map_cons, List.nodup_cons]
      exact ⟨h.1, h.2⟩
    · simp only [assocSet, if_neg hk]
      rw [keysNodup, List.map_cons, List.nodup_cons]
      refine ⟨?_, ih h.2⟩
      intro hmem
      rcases (mem_keys_assocSet t k k0 v).mp hmem with hm | heq
      · exact h.1 hm
      · exact hk heq

/-- On a key-unique map, membership determines the lookup result. -/
theorem assocGet_of_mem_nodup {α : Type} {m : List (String × α)}
    (hn : keysNodup m) {k : String} {v : α} (h : (k, v) ∈ m) :
    assocGet m k = some v := by
  induction m with
  | nil => simp at h
  | cons hd t ih =>
    obtain ⟨k0, v0⟩ := hd
    rw [keysNodup, List.map_cons, List.nodup_cons] at hn
    rcases List.mem_cons.mp h with h1 | h1
    · have hk : k = k0 := congrArg Prod.fst h1
      have hv : v = v0 := congrArg Prod.snd h1
      subst hk; subst hv
      simp [assocGet]
    · have hk : k0 ≠ k := by
        intro heq
        apply hn.1
        rw [heq]
        exact List.mem_map.mpr ⟨(k, v), h1, rfl⟩
      simp only [assocGet, if_neg hk]
      exact ih hn.2 h1

/-- A group absent from the graph has reference priority −1, at any fuel. -/
theorem prioF_absent (g : Graph) (fuel : Nat) (k : String)
    (h : assocGet g k = none) : prioF g fuel k = -1 := by
  cases fuel <;> simp [prioF, h]

/-- A node with an empty block set has reference priority 0, at any fuel. -/
theorem prioF_empty (g : Graph) (fuel : Nat) (k : String)
    (h : assocGet g k = some []) : prioF g fuel k = 0 := by
  cases fuel <;> simp [prioF, h]

/-- Unfolding of the reference recursion on a node with a non-empty block
set. -/
theorem prioF_succ (g : Graph) (fuel : Nat) (k : String) (b : String)
    (bs : List String) (h : assocGet g k = some (b :: bs)) :
    prioF g (fuel + 1) k
      = 1 + mathMax ((b :: bs).map (fun x => prioF g fuel x)) := by
  simp [prioF, h]

/-- On an acyclic graph the reference recursion is fuel-independent once
the fuel exceeds the node's rank. -/
theorem prioF_stab {g : Graph} {rank : String → Nat}
    (hdec : EdgeDecreasing g rank) :
    ∀ r k m n, rank k ≤ r → rank k < m → rank k < n →
      prioF g m k = prioF g n k := by
  intro r
  induction r using Nat.strong_induction_on with
  | _ r ih =>
    intro k m n hr hm hn
    obtain ⟨m', rfl⟩ : ∃ m', m = m' + 1 := ⟨m - 1, by omega⟩
    obtain ⟨n', rfl⟩ : ∃ n', n = n' + 1 := ⟨n - 1, by omega⟩
    cases hg : assocGet g k with
    | none => rw [prioF_absent g _ k hg, prioF_absent g _ k hg]
    | some blk =>
      cases blk with
      | nil => rw [prioF_empty g _ k hg, prioF_empty g _ k hg]
      | cons b bs =>
        have hmaps : (b :: bs).map (fun x => prioF g m' x)
            = (b :: bs).map (fun x => prioF g n' x) := by
          apply List.map_congr_left
          intro x hx
          cases hgx : assocGet g x with
          | none => rw [prioF_absent g _ x hgx, prioF_absent g _ x hgx]
          | some blk' =>
            have hlt := hdec k _ hg x hx blk' hgx
            exact ih (rank x) (by omega) x m' n' le_rfl (by omega) (by omega)
        rw [prioF_succ g m' k b bs hg, prioF_succ g n' k b bs hg, hmaps]

/-- Extending a good memo with the reference value keeps it good. -/
theorem memoGood_assocSet {g : Graph} {rank : String → Nat} {m : Memo}
    (hm : MemoGood g rank m) (k : String) (p : Int)
    (hp : p = prioVal g rank k) : MemoGood g rank (assocSet m k p) := by
  intro k' p' h'
  rw [assocGet_assocSet] at h'
  by_cases hk : k = k'
  · rw [if_pos hk] at h'
    cases h'
    rw [← hk]
    exact hp
  · rw [if_neg hk] at h'
    exact hm k' p' h'

/-- Step equation: DFS on an `undefined` node. -/
theorem itemsArgSortDFS_none (g : Graph) (fuel : Nat) (m : Memo) :
    itemsArgSortDFS g fuel m none = (-1, m) := by
  cases fuel <;> simp [itemsArgSortDFS]

/-- Step equation: DFS on a memoised node. -/
theorem itemsArgSortDFS_hit (g : Graph) (fuel : Nat) (m : Memo) (k : String)
    (blk : List String) (p : Int) (h : assocGet m k = some p) :
    itemsArgSortDFS g fuel m (some (k, blk)) = (p, m) := by
  cases fuel <;> simp [itemsArgSortDFS, h]

/-- Step equation: DFS on an unmemoised node with an empty block set. -/
theorem itemsArgSortDFS_empty (g : Graph) (fuel : Nat) (m : Memo)
    (k : String) (h : assocGet m k = none) :
    itemsArgSortDFS g fuel m (some (k, [])) = (0, assocSet m k 0) := by
  cases fuel <;> simp [itemsArgSortDFS, h]

/-- Step equation: DFS on an unmemoised node with a non-empty block set and
positive fuel. -/
theorem itemsArgSortDFS_step (g : Graph) (f : Nat) (m : Memo) (k : String)
    (b : String) (bs : List String) (h : assocGet m k = none) :
    itemsArgSortDFS g (f + 1) m (some (k, b :: bs))
      = (1 + mathMax (itemsArgSortDFSChildren g f m (b :: bs)).1,
         assocSet (itemsArgSortDFSChildren g f m (b :: bs)).2 k
           (1 + mathMax (itemsArgSortDFSChildren g f m (b :: bs)).1)) := by
  simp only [itemsArgSortDFS, h, List.isEmpty_cons, Bool.false_eq_true,
    if_false]
  rw [itemsArgSortDFS_foldl g f (b :: bs) [] m]
  simp

/-- Step equation: the child loop on an empty block list. -/
theorem itemsArgSortDFSChildren_nil (g : Graph) (f : Nat) (m : Memo) :
    itemsArgSortDFSChildren g f m [] = ([], m) := by
  simp [itemsArgSortDFSChildren]

/-- Step equation: the child loop on a non-empty block list. -/
theorem itemsArgSortDFSChildren_cons (g : Graph) (f : Nat) (m : Memo)
    (b : String) (bs : List String) :
    itemsArgSortDFSChildren g f m (b :: bs)
      = ((itemsArgSortDFS g f m ((assocGet g b).map (fun blk => (b, blk)))).1
            :: (itemsArgSortDFSChildren g f
                (itemsArgSortDFS g f m
                  ((assocGet g b).map (fun blk => (b, blk)))).2 bs).1,
         (itemsArgSortDFSChildren g f
            (itemsArgSortDFS g f m
              ((assocGet g b).map (fun blk => (b, blk)))).2 bs).2) := by
  simp [itemsArgSortDFSChildren]

/-- Step equation: DFS on an unmemoised node with a non-empty block set and
no fuel (unreachable from `itemsArgSort` on acyclic graphs). -/
theorem itemsArgSortDFS_zero (g : Graph) (m : Memo) (k : String) (b : String)
    (bs : List String) (h : assocGet m k = none) :
    itemsArgSortDFS g 0 m (some (k, b :: bs)) = (-1, m) := by
  simp [itemsArgSortDFS, h]

/-- Core correctness of the memoised DFS on an acyclic graph: starting from
a good memo, with fuel above the node's rank, the DFS returns the reference
priority of the node and leaves the memo good. -/
theorem itemsArgSortDFS_correct {g : Graph} {rank : String → Nat}
    (hdec : EdgeDecreasing g rank) :
    ∀ fuel m k blk, MemoGood g rank m → assocGet g k = some blk →
      rank k < fuel →
      (itemsArgSortDFS g fuel m (some (k, blk))).1 = prioVal g rank k
      ∧ MemoGood g rank (itemsArgSortDFS g fuel m (some (k, blk))).2 := by
  intro fuel
  induction fuel with
  | zero => intro m k blk _ _ hr; omega
  | succ f ih =>
    have hchild : ∀ bs m, MemoGood g rank m →
        (∀ b ∈ bs, ∀ blk', assocGet g b = some blk' → rank b < f) →
        (itemsArgSortDFSChildren g f m bs).1
          = bs.map (fun b => match assocGet g b with
              | none => (-1 : Int)
              | some _ => prioVal g rank b)
        ∧ MemoGood g rank (itemsArgSortDFSChildren g f m bs).2 := by
      intro bs
      induction bs with
      | nil =>
        intro m hm _
        rw [itemsArgSortDFSChildren_nil]
        exact ⟨rfl, hm⟩
      | cons b bs ihb =>
        intro m hm hranks
        rw [itemsArgSortDFSChildren_cons]
        cases hgb : assocGet g b with
        | none =>
          simp only [Option.map_none']
          rw [itemsArgSortDFS_none]
          obtain ⟨hl, hg2⟩ := ihb m hm
            (fun x hx blk' hgx => hranks x (List.mem_cons_of_mem b hx) blk' hgx)
          constructor
          · simp [hgb, hl]
          · exact hg2
        | some blkb =>
          simp only [Option.map_some']
          have hrb : rank b < f := hranks b (List.mem_cons_self b bs) blkb hgb
          obtain ⟨h1, h2⟩ := ih m b blkb hm hgb hrb
          obtain ⟨hl, hg2⟩ := ihb (itemsArgSortDFS g f m (some (b, blkb))).2 h2
            (fun x hx blk' hgx => hranks x (List.mem_cons_of_mem b hx) blk' hgx)
          constructor
          · simp [hgb, h1, hl]
          · exact hg2
    intro m k blk hm hg hrank
    cases hmk : assocGet m k with
    | some p =>
      rw [itemsArgSortDFS_hit g (f + 1) m k blk p hmk]
      exact ⟨hm k p hmk, hm⟩
    | none =>
      cases blk with
      | nil =>
        rw [itemsArgSortDFS_empty g (f + 1) m k hmk]
        have h0 : (0 : Int) = prioVal g rank k := by
          rw [prioVal, prioF_empty g _ k hg]
        exact ⟨h0, memoGood_assocSet hm k 0 h0⟩
      | cons b bs =>
        rw [itemsArgSortDFS_step g f m k b bs hmk]
        have hranks : ∀ x ∈ b :: bs, ∀ blk', assocGet g x = some blk' →
            rank x < f := by
          intro x hx blk' hgx
          have := hdec k _ hg x hx blk' hgx
          omega
        obtain ⟨hl, hgood⟩ := hchild (b :: bs) m hm hranks
        have hp : 1 + mathMax (itemsArgSortDFSChildren g f m (b :: bs)).1
            = prioVal g rank k := by
          rw [hl, prioVal, prioF_succ g (rank k) k b bs hg]
          congr 1
          congr 1
          apply List.map_congr_left
          intro x hx
          cases hgx : assocGet g x with
          | none => simp [hgx, prioF_absent g (rank k) x hgx]
          | some blk' =>
            have hlt := hdec k _ hg x hx blk' hgx
            have hstab : prioF g (rank x + 1) x = prioF g (rank k) x :=
              prioF_stab hdec (rank x) x (rank x + 1) (rank k) le_rfl
                (by omega) (by omega)
            simp [hgx, prioVal, hstab]
        exact ⟨hp, memoGood_assocSet hgood k _ hp⟩

/-- The DFS only extends the memo: a key present before a call is still
present afterwards. -/
theorem itemsArgSortDFS_mono {g : Graph} :
    ∀ fuel m node k0, (assocGet m k0).isSome = true →
      (assocGet (itemsArgSortDFS g fuel m node).2 k0).isSome = true := by
  intro fuel
  induction fuel with
  | zero =>
    intro m node k0 h
    cases node with
    | none => rw [itemsArgSortDFS_none]; exact h
    | some nd =>
      obtain ⟨k, blk⟩ := nd
      cases hmk : assocGet m k with
      | some p => rw [itemsArgSortDFS_hit g 0 m k blk p hmk]; exact h
      | none =>
        cases blk with
        | nil =>
          rw [itemsArgSortDFS_empty g 0 m k hmk, assocGet_assocSet]
          split_ifs <;> simp [h]
        | cons b bs =>
          rw [itemsArgSortDFS_zero g m k b bs hmk]
          exact h
  | succ f ih =>
    have hchild : ∀ bs m k0, (assocGet m k0).isSome = true →
        (assocGet (itemsArgSortDFSChildren g f m bs).2 k0).isSome = true := by
      intro bs
      induction bs with
      | nil => intro m k0 h; rw [itemsArgSortDFSChildren_nil]; exact h
      | cons b bs ihb =>
        intro m k0 h
        rw [itemsArgSortDFSChildren_cons]
        exact ihb _ k0 (ih m _ k0 h)
    intro m node k0 h
    cases node with
    | none => rw [itemsArgSortDFS_none]; exact h
    | some nd =>
      obtain ⟨k, blk⟩ := nd
      cases hmk : assocGet m k with
      | some p => rw [itemsArgSortDFS_hit g (f + 1) m k blk p hmk]; exact h
      | none =>
        cases blk with
        | nil =>
          rw [itemsArgSortDFS_empty g (f + 1) m k hmk, assocGet_assocSet]
          split_ifs <;> simp [h]
        | cons b bs =>
          rw [itemsArgSortDFS_step g f m k b bs hmk, assocGet_assocSet]
          split_ifs with hk
          · simp
          · exact hchild (b :: bs) m k0 h

/-- The traversal loop also only extends the memo. -/
theorem itemsArgSortTraverse_mono {g : Graph} (fuel : Nat) :
    ∀ entries m k0, (assocGet m k0).isSome = true →
      (assocGet (itemsArgSortTraverse g fuel m entries) k0).isSome = true := by
  intro entries
  induction entries with
  | nil => intro m k0 h; exact h
  | cons e rest ihr =>
    intro m k0 h
    obtain ⟨k, blk⟩ := e
    show (assocGet (itemsArgSortTraverse g fuel
      (itemsArgSortDFS g fuel m (some (k, blk))).2 rest) k0).isSome = true
    exact ihr _ k0 (itemsArgSortDFS_mono fuel m (some (k, blk)) k0 h)

/-- Running the DFS from a list of graph entries keeps the memo good and
records a priority for every visited entry. -/
theorem itemsArgSortTraverse_correct {g : Graph} {rank : String → Nat}
    (hdec : EdgeDecreasing g rank) (fuel : Nat) :
    ∀ entries m, MemoGood g rank m →
      (∀ p ∈ entries, assocGet g p.1 = some p.2 ∧ rank p.1 < fuel) →
      MemoGood g rank (itemsArgSortTraverse g fuel m entries)
      ∧ ∀ p ∈ entries,
          (assocGet (itemsArgSortTraverse g fuel m entries) p.1).isSome
            = true := by
  intro entries
  induction entries with
  | nil =>
    intro m hm _
    exact ⟨hm, by simp⟩
  | cons e rest ihr =>
    intro m hm hent
    obtain ⟨k, blk⟩ := e
    have he := hent (k, blk) (List.mem_cons_self _ _)
    obtain ⟨h1, h2⟩ := itemsArgSortDFS_correct hdec fuel m k blk hm he.1 he.2
    have hkpres : (assocGet (itemsArgSortDFS g fuel m (some (k, blk))).2
        k).isSome = true := by
      cases hmk : assocGet m k with
      | some p => rw [itemsArgSortDFS_hit g fuel m k blk p hmk, hmk]; rfl
      | none =>
        cases blk with
        | nil =>
          rw [itemsArgSortDFS_empty g fuel m k hmk, assocGet_assocSet,
            if_pos rfl]
          rfl
        | cons b bs =>
          obtain ⟨f, rfl⟩ : ∃ f, fuel = f + 1 := ⟨fuel - 1, by omega⟩
          rw [itemsArgSortDFS_step g f m k b bs hmk, assocGet_assocSet,
            if_pos rfl]
          rfl
    show MemoGood g rank (itemsArgSortTraverse g fuel
        (itemsArgSortDFS g fuel m (some (k, blk))).2 rest) ∧ _
    obtain ⟨hg2, hpres⟩ := ihr (itemsArgSortDFS g fuel m (some (k, blk))).2 h2
      (fun p hp => hent p (List.mem_cons_of_mem _ hp))
    refine ⟨hg2, ?_⟩
    intro p hp
    rcases List.mem_cons.mp hp with h | h
    · rw [h]
      exact itemsArgSortTraverse_mono fuel rest _ k hkpres
    · exact hpres p h

/-- The graph-building loop preserves key uniqueness. -/
theorem buildGraphAux_nodup (env : Env) (character : Character) :
    ∀ (l : List SimpleItem) (g g' : Graph), keysNodup g →
      buildGraphAux env character l g = .ok g' → keysNodup g' := by
  intro l
  induction l with
  | nil =>
    intro g g' hg h
    simp only [buildGraphAux] at h
    cases h
    exact hg
  | cons it rest ihl =>
    intro g g' hg h
    simp only [buildGraphAux] at h
    cases hA : env.AssetGet character.AssetFamily it.Group it.Name with
    | none => simp [hA] at h
    | some asset =>
      simp only [hA] at h
      cases hc : (asset.Group.Category != "Item") with
      | true =>
        simp [hc] at h
        exact ihl g g' hg h
      | false =>
        simp [hc] at h
        exact ihl _ g' (keysNodup_assocSet g it.Group _ hg) h

/-- The graph built by `itemsArgSort` has pairwise distinct keys. -/
theorem buildGraph_nodup (env : Env) (itemList : List SimpleItem)
    (character : Character) (g : Graph)
    (h : buildGraph env itemList character = .ok g) : keysNodup g :=
  buildGraphAux_nodup env character itemList [] g (by simp [keysNodup]) h

/-- Unfolding `itemsArgSort` in terms of its graph: priorities are looked up in the
final memo of the traversal. -/
theorem itemsArgSort_eq (env : Env) (itemList : List SimpleItem)
    (character : Character) (g : Graph)
    (hb : buildGraph env itemList character = .ok g) :
    itemsArgSort env itemList character
      = .ok (g.map (fun p =>
          (p.1, assocGet (itemsArgSortTraverse g g.length [] g) p.1))) := by
  simp [itemsArgSort, hb]

/-- Lookup in the returned priority record, through the graph keys. -/
theorem assocGet_record (m : Memo) :
    ∀ (g : Graph) (b : String),
      assocGet (g.map (fun p => (p.1, assocGet m p.1))) b
        = (assocGet g b).map (fun _ => assocGet m b) := by
  intro g
  induction g with
  | nil => intro b; simp [assocGet]
  | cons p t ihg =>
    intro b
    obtain ⟨k, v⟩ := p
    by_cases hk : k = b <;> simp [assocGet, hk, ihg]

/-- C3: on every acyclic blocking graph built by `itemsArgSort`
(acyclicity expressed by a topological rank bounded by the node count),
the returned record satisfies the claimed recurrence: a node with an empty
block set has priority 0, and otherwise its priority is 1 plus the maximum
over its blocked slots of that slot's priority, a blocked slot absent from
the graph contributing −1 to the maximum. -/
theorem itemsArgSort_priority_recurrence
    (env : Env) (itemList : List SimpleItem) (character : Character)
    (g : Graph) (record : List (String × Option Int)) (rank : String → Nat)
    (hb : buildGraph env itemList character = .ok g)
    (hs : itemsArgSort env itemList character = .ok record)
    (hbound : ∀ p ∈ g, rank p.1 < g.length)
    (hacyc : ∀ p ∈ g, ∀ b ∈ p.2, (assocGet g b).isSome = true →
      rank b < rank p.1) :
    ∀ p ∈ g, assocGet record p.1
      = some (some (if p.2.isEmpty then (0 : Int)
          else 1 + mathMax (p.2.map (fun b =>
            match assocGet record b with
            | some (some q) => q
            | some none => -1
            | none => -1)))) := by
  have hnd := buildGraph_nodup env itemList character g hb
  have hdec : EdgeDecreasing g rank := by
    intro k blk hg b hbmem blk' hgb
    exact hacyc (k, blk) (assocGet_mem hg) b hbmem (by rw [hgb]; rfl)
  have hrec : record
      = g.map (fun p =>
          (p.1, assocGet (itemsArgSortTraverse g g.length [] g) p.1)) := by
    have := (itemsArgSort_eq env itemList character g hb).symm.trans hs
    exact (Except.ok.inj this).symm
  have hment : ∀ p ∈ g, assocGet g p.1 = some p.2 ∧ rank p.1 < g.length :=
    fun p hp => ⟨assocGet_of_mem_nodup hnd hp, hbound p hp⟩
  have hinit : MemoGood g rank [] := by
    intro k p h
    simp [assocGet] at h
  obtain ⟨hgood, hpres⟩ :=
    itemsArgSortTraverse_correct hdec g.length g [] hinit hment
  intro p hp
  obtain ⟨k, blk⟩ := p
  have hgk : assocGet g k = some blk := assocGet_of_mem_nodup hnd hp
  rw [hrec, assocGet_record _ g k, hgk]
  have hkS := hpres (k, blk) hp
  obtain ⟨q, hq⟩ := Option.isSome_iff_exists.mp hkS
  have hqv : q = prioVal g rank k := hgood k q hq
  rw [Option.map_some']
  rw [hq, hqv]
  have hinner : prioVal g rank k
      = (if blk.isEmpty then (0 : Int)
          else 1 + mathMax (blk.map (fun b =>
            match assocGet
              (g.map (fun p =>
                (p.1, assocGet (itemsArgSortTraverse g g.length [] g) p.1)))
              b with
            | some (some q) => q
            | some none => -1
            | none => -1))) := by
    cases blk with
    | nil =>
      rw [prioVal, prioF_empty g _ k hgk]
      rfl
    | cons b bs =>
      rw [prioVal, prioF_succ g (rank k) k b bs hgk]
      rw [if_neg (by simp)]
      congr 1
      congr 1
      apply List.map_congr_left
      intro x hx
      cases hgx : assocGet g x with
      | none =>
        rw [assocGet_record _ g x, hgx]
        simp [prioF_absent g (rank k) x hgx]
      | some blkx =>
        have hxmem : (x, blkx) ∈ g := assocGet_mem hgx
        have hxS := hpres (x, blkx) hxmem
        obtain ⟨qx, hqx⟩ := Option.isSome_iff_exists.mp hxS
        have hqxv : qx = prioVal g rank x := hgood x qx hqx
        have hlt : rank x < rank k := hdec k _ hgk x hx blkx hgx
        have hstab : prioF g (rank x + 1) x = prioF g (rank k) x :=
          prioF_stab hdec (rank x) x (rank x + 1) (rank k) le_rfl
            (by omega) (by omega)
        rw [assocGet_record _ g x, hgx, Option.map_some', hqx, hqxv]
        simp [prioVal, hstab]
  rw [hinner]

/-- Witness for `itemsArgSort_priority_recurrence` on the concrete
two-node graph. -/
theorem itemsArgSort_priority_recurrence_witness :
    assocGet dfsTestRecord "A"
      = some (some (if (["B"] : List String).isEmpty then (0 : Int)
          else 1 + mathMax ((["B"] : List String).map (fun b =>
            match assocGet dfsTestRecord b with
            | some (some q) => q
            | some none => -1
            | none => -1)))) :=
  itemsArgSort_priority_recurrence dfsTestEnv dfsTestItems flagFalseChar
    [("A", ["B"]), ("B", [])] dfsTestRecord dfsTestRank rfl rfl
    (by decide) (by decide) ("A", ["B"]) (by decide)

/-- C2 evaluation at the failing input: with static block list
`["ItemDevices"]` and baseline-property block list `["ItemHands"]`, the
graph node built by `itemsArgSort` holds the one-character strings of
`"ItemDevices"` — not the union of the two block lists, which contains
neither of the two blocked group names. -/
theorem itemsArgSort_blockSet_cex :
    buildGraph spreadBugEnv
        [{ Name := "cuffs", Group := "ItemArms", ItemType := none }]
        flagFalseChar
      = .ok [("ItemArms", ["I", "t", "e", "m", "D", "v", "i", "c", "s"])]
    ∧ "ItemDevices" ∉ ["I", "t", "e", "m", "D", "v", "i", "c", "s"]
    ∧ "ItemHands" ∉ ["I", "t", "e", "m", "D", "v", "i", "c", "s"] := by
  refine ⟨rfl, by decide, by decide⟩

/-- C1 evaluation at the failing input: the resolved priorities are
`"A" ↦ 1` and `"B" ↦ 0`, yet `fortuneItemsSort` returns the list
`[A-item, B-item]` unchanged — the resolved priorities along the result
are `[1, 0]`, strictly decreasing, so the result is not sorted ascending
by priority. -/
theorem fortuneItemsSort_unsorted_cex :
    fortuneItemsSort dfsTestEnv [sortBugItemA, sortBugItemB] flagFalseChar
      = .ok [sortBugItemA, sortBugItemB]
    ∧ itemsArgSort dfsTestEnv
        [sortBugItemA.toSimpleItem, sortBugItemB.toSimpleItem] flagFalseChar
      = .ok [("A", some 1), ("B", some 0)] :=
  ⟨rfl, rfl⟩

/-- C4 counterexample: for a Decoy-crafted item with a lock effect whose
lock asset is absent, the claimed "removable iff the lock is absent or
neither owner- nor lover-only" fails: the claim's right-hand side holds
(lock absent) but `canUnlock` returns `false`. -/
theorem canUnlock_iff_cex :
    decoyNoLockItem.hasLockEffect = true
    ∧ decoyNoLockItem.Craft = some { Property := some "Decoy" }
    ∧ ¬((canUnlock decoyNoLockItem = true)
          ↔ (decoyNoLockItem.lock = none
              ∨ ∃ l, decoyNoLockItem.lock = some l
                  ∧ l.OwnerOnly = false ∧ l.LoverOnly = false)) := by
  refine ⟨rfl, rfl, ?_⟩
  intro h
  have := h.mpr (Or.inl rfl)
  simp [canUnlock, decoyNoLockItem] at this

/-- C4 (amended): an item with no lock effect is always removable; a
locked Decoy-crafted item is removable iff its lock asset is present and
neither owner-only nor lover-only; a locked item that is not Decoy-crafted
is never removable. -/
theorem canUnlock_spec (item : Item) :
    (item.hasLockEffect = false → canUnlock item = true)
    ∧ (item.hasLockEffect = true → isDecoyCraft item.Craft = true →
        (canUnlock item = true ↔ lockNotOwnerLover item.lock = true))
    ∧ (item.hasLockEffect = true → isDecoyCraft item.Craft = false →
        canUnlock item = false) := by
  refine ⟨?_, ?_, ?_⟩
  · intro h
    simp [canUnlock, h]
  · intro h hd
    cases hl : item.lock with
    | none => simp [canUnlock, h, hd, hl, lockNotOwnerLover]
    | some l => simp [canUnlock, h, hd, hl, lockNotOwnerLover]
  · intro h hd
    simp [canUnlock, h, hd]

/-- Witness for `canUnlock_spec`: a Decoy-crafted item under a plain
(non-owner, non-lover) lock is removable. -/
theorem canUnlock_spec_witness :
    canUnlock
      { Asset := boundCosplayAsset,
        Craft := some { Property := some "Decoy" }, Property := none,
        Color := [], hasLockEffect := true,
        lock := some { OwnerOnly := false, LoverOnly := false } } = true :=
  ((canUnlock_spec
      { Asset := boundCosplayAsset,
        Craft := some { Property := some "Decoy" }, Property := none,
        Color := [], hasLockEffect := true,
        lock := some { OwnerOnly := false, LoverOnly := false } }).2.1
    rfl rfl).mpr rfl

/-- C7: a non-array item list makes `fortuneWheelEquip` throw before any
side effect, the character coming back unchanged; and `characterStrip`
throws, without touching the character, on a null character and on a
character that is neither simple nor a player. -/
theorem fortuneWheelEquip_invalid_input :
    (∀ (env : Env) (name typeName : String) (stripLevel : Nat)
        (gcb : Option (Item → Character → Item × Character))
        (prc : Option (List FortuneWheelItem → Character →
          List FortuneWheelItem))
        (ch : Character),
      fortuneWheelEquip env name (.notArray typeName) stripLevel gcb prc ch
        = .error ("Invalid itemList type: " ++ typeName, ch))
    ∧ (∀ stripLevel : Nat,
        characterStrip stripLevel none
          = .error ("Expected a simple or player character", none))
    ∧ (∀ (stripLevel : Nat) (ch : Character),
        (ch.IsSimple || ch.IsPlayer) = false →
        characterStrip stripLevel (some ch)
          = .error ("Expected a simple or player character", some ch)) := by
  refine ⟨fun env name t lvl g p ch => rfl, fun lvl => rfl, ?_⟩
  intro lvl ch h
  simp [characterStrip, h]

/-- Witness for `fortuneWheelEquip_invalid_input` on a concrete NPC
character. -/
theorem fortuneWheelEquip_invalid_input_witness :
    characterStrip 2 (some npcChar)
      = .error ("Expected a simple or player character", some npcChar) :=
  fortuneWheelEquip_invalid_input.2.2 2 npcChar rfl

/-- A key absent from the key list is absent from the map. -/
theorem assocGet_none_of_not_mem_keys {α : Type} (m : List (String × α))
    (k : String) (h : k ∉ m.map Prod.fst) : assocGet m k = none := by
  induction m with
  | nil => rfl
  | cons hd t ih =>
    obtain ⟨k0, v0⟩ := hd
    simp only [List.map_cons, List.mem_cons] at h
    have hk : k0 ≠ k := fun heq => h (Or.inl heq.symm)
    simp only [assocGet, if_neg hk]
    exact ih (fun hm => h (Or.inr hm))

/-- JS `Object.assign` leaves keys that the source bag does not mention
untouched. -/
theorem assocGet_objectAssign_of_none (src : PropBag) :
    ∀ (target : PropBag) (k : String), assocGet src k = none →
      assocGet (objectAssign target src) k = assocGet target k := by
  induction src with
  | nil => intro target k _; rfl
  | cons kv t ih =>
    intro target k h
    obtain ⟨k0, v0⟩ := kv
    by_cases hk : k0 = k
    · subst hk
      simp [assocGet] at h
    · simp only [assocGet, if_neg hk] at h
      show assocGet (objectAssign (assocSet target k0 v0) t) k = _
      rw [ih (assocSet target k0 v0) k h, assocGet_assocSet,
        if_neg hk]

/-- JS `Object.assign` installs every key the (key-unique) source bag
mentions. -/
theorem assocGet_objectAssign_of_some (src : PropBag) :
    ∀ (target : PropBag) (k : String) (v : PropVal), keysNodup src →
      assocGet src k = some v →
      assocGet (objectAssign target src) k = some v := by
  induction src with
  | nil => intro target k v _ h; simp [assocGet] at h
  | cons kv t ih =>
    intro target k v hn h
    obtain ⟨k0, v0⟩ := kv
    rw [keysNodup, List.map_cons, List.nodup_cons] at hn
    by_cases hk : k0 = k
    · subst hk
      simp only [assocGet, if_pos rfl] at h
      cases h
      show assocGet (objectAssign (assocSet target k0 v) t) k0 = some v
      rw [assocGet_objectAssign_of_none t _ k0
          (assocGet_none_of_not_mem_keys t k0 hn.1),
        assocGet_assocSet, if_pos rfl]
    · simp only [assocGet, if_neg hk] at h
      exact ih (assocSet target k0 v0) k v hn.2 h

/-- C8: merging the declared property bag onto an instance that already
has a (non-null) bag preserves every previously set key the declared bag
does not mention, and installs every key it does mention (merge, not
replace); the merged bag is built from a structural copy of the declared
bag, so the instance never aliases the descriptor's bag. -/
theorem mergeItemProperty_preserves (declared p0 : PropBag) (k : String) :
    (assocGet declared k = none →
      assocGet (mergeItemProperty declared (some p0)) k = assocGet p0 k)
    ∧ (keysNodup declared → ∀ v, assocGet declared k = some v →
      assocGet (mergeItemProperty declared (some p0)) k = some v) := by
  constructor
  · intro h
    exact assocGet_objectAssign_of_none declared p0 k h
  · intro hn v h
    exact assocGet_objectAssign_of_some declared p0 k v hn h

/-- Witness for `mergeItemProperty_preserves`: the pre-existing key
`"Type"` survives a merge with a bag that only sets `"Difficulty"`, and
the declared key is installed. -/
theorem mergeItemProperty_preserves_witness :
    assocGet (mergeItemProperty [("Difficulty", "5")]
        (some [("Type", "Happy")])) "Type" = some "Happy"
    ∧ assocGet (mergeItemProperty [("Difficulty", "5")]
        (some [("Type", "Happy")])) "Difficulty" = some "5" :=
  ⟨((mergeItemProperty_preserves [("Difficulty", "5")] [("Type", "Happy")]
      "Type").1 rfl).trans rfl,
   (mergeItemProperty_preserves [("Difficulty", "5")] [("Type", "Happy")]
      "Difficulty").2 (by rw [keysNodup]; decide) "5" rfl⟩

/-- A find hit survives any filtering that keeps the hit. -/
theorem find?_filter_keep {α : Type} (p q : α → Bool) :
    ∀ (l : List α) (x : α), l.find? p = some x → q x = true →
      (l.filter q).find? p = some x := by
  intro l
  induction l with
  | nil => intro x h _; simp at h
  | cons a t ih =>
    intro x h hq
    cases hpa : p a with
    | true =>
      rw [List.find?_cons_of_pos _ hpa] at h
      cases h
      rw [List.filter_cons_of_pos hq, List.find?_cons_of_pos _ hpa]
    | false =>
      rw [List.find?_cons_of_neg _ (by simp [hpa])] at h
      by_cases hqa : q a = true
      · rw [List.filter_cons_of_pos hqa,
          List.find?_cons_of_neg _ (by simp [hpa])]
        exact ih x h hq
      · rw [List.filter_cons_of_neg (by simpa using hqa)]
        exact ih x h hq

/-- A find hit in the left part of an append is the overall find hit. -/
theorem find?_append_left {α : Type} (p : α → Bool) :
    ∀ (l1 l2 : List α) (x : α), l1.find? p = some x →
      (l1 ++ l2).find? p = some x := by
  intro l1
  induction l1 with
  | nil => intro l2 x h; simp at h
  | cons a t ih =>
    intro l2 x h
    cases hpa : p a with
    | true =>
      rw [List.find?_cons_of_pos _ hpa] at h
      cases h
      rw [List.cons_append, List.find?_cons_of_pos _ hpa]
    | false =>
      rw [List.find?_cons_of_neg _ (by simp [hpa])] at h
      rw [List.cons_append, List.find?_cons_of_neg _ (by simp [hpa])]
      exact ih l2 x h

/-- A successful `characterStrip` only filters the appearance, keeping in
particular every non-`"Appearance"`-category item, and leaves all other
character fields unchanged. -/
theorem characterStrip_ok_cases (stripLevel : Nat) (ch ch' : Character)
    (h : characterStrip stripLevel (some ch) = .ok ch') :
    ch'.AssetFamily = ch.AssetFamily
    ∧ ∃ q : Item → Bool, ch'.Appearance = ch.Appearance.filter q
        ∧ ∀ it : Item, it.Asset.Group.Category ≠ "Appearance" →
            q it = true := by
  simp only [characterStrip] at h
  cases hb : (ch.IsSimple || ch.IsPlayer) with
  | false => simp [hb] at h
  | true =>
    simp only [hb, Bool.not_true, Bool.false_eq_true, if_false] at h
    cases hg : getStripCondition stripLevel ch with
    | error e => rw [hg] at h; simp at h
    | ok pred =>
      rw [hg] at h
      have hch : ch' = { ch with Appearance := ch.Appearance.filter (fun it =>
          !(it.Asset.Group.AllowNone
            && (it.Asset.Group.Category == "Appearance")
            && pred it.Asset)) } := (Except.ok.inj h).symm
      subst hch
      refine ⟨rfl, ⟨_, rfl, ?_⟩⟩
      intro it hcat
      have hbeq : (it.Asset.Group.Category == "Appearance") = false :=
        beq_eq_false_iff_ne.mpr hcat
      simp [hbeq]

/-- For every valid strip level the condition factory succeeds. -/
theorem getStripCondition_ok (stripLevel : Nat) (hlvl : stripLevel ≤ 4)
    (ch : Character) :
    ∃ pred, getStripCondition stripLevel ch = .ok pred := by
  interval_cases stripLevel <;> exact ⟨_, rfl⟩

/-- The predicate `skipSecond` is stable under extending the failure record and the
suppressed-group set. -/
theorem skipSecond_mono (env : Env) (fam : String)
    (fr fr' : List (String × List String)) (cb cb' : List String)
    (Z : FortuneWheelItem) (h : skipSecond env fam fr cb Z)
    (hfr : ∀ k, (assocGet fr k).isSome = true →
      (assocGet fr' k).isSome = true)
    (hcb : ∀ x ∈ cb, x ∈ cb') : skipSecond env fam fr' cb' Z := by
  unfold skipSecond at h ⊢
  cases hA : env.AssetGet fam Z.Group Z.Name with
  | none => trivial
  | some a =>
    rw [hA] at h
    rcases h with h | h
    · exact Or.inl (hfr _ h)
    · exact Or.inr (hcb _ h)

/-- One clearing-pass step, against a locked occupant of slot `G`: the
occupant stays, the character's family is unchanged, the failure record
and suppressed-group set only grow, an entry under a key other than the
processed item's record key is untouched, and a processed item targeting
`G` is left in a state the equip pass will skip. -/
theorem firstPass_step_inv (env : Env) (G descY : String) (X : Item)
    (hXG : X.Asset.Group.Name = G) (hlock : canUnlock X = false)
    (ch : Character) (fr : List (String × List String)) (cb : List String)
    (Z : FortuneWheelItem)
    (hocc : InventoryGet ch G = some X) :
    InventoryGet (fortuneWheelEquipFirstPass env (ch, fr, cb) Z).1 G = some X
    ∧ (fortuneWheelEquipFirstPass env (ch, fr, cb) Z).1.AssetFamily
        = ch.AssetFamily
    ∧ (∀ k, (assocGet fr k).isSome = true →
        (assocGet (fortuneWheelEquipFirstPass env (ch, fr, cb) Z).2.1
          k).isSome = true)
    ∧ (∀ x ∈ cb, x ∈ (fortuneWheelEquipFirstPass env (ch, fr, cb) Z).2.2)
    ∧ (recKey env ch.AssetFamily Z ≠ descY →
        assocGet (fortuneWheelEquipFirstPass env (ch, fr, cb) Z).2.1 descY
          = assocGet fr descY)
    ∧ (Z.Group = G →
        skipSecond env ch.AssetFamily
          (fortuneWheelEquipFirstPass env (ch, fr, cb) Z).2.1
          (fortuneWheelEquipFirstPass env (ch, fr, cb) Z).2.2 Z) := by
  cases hA : env.AssetGet ch.AssetFamily Z.Group Z.Name with
  | none =>
    have hstep : fortuneWheelEquipFirstPass env (ch, fr, cb) Z
        = (ch, assocSet fr Z.Name ["Unknown asset"], cb) := by
      simp [fortuneWheelEquipFirstPass, hA]
    rw [hstep]
    refine ⟨hocc, rfl, ?_, fun x hx => hx, ?_, ?_⟩
    · intro k hk
      rw [assocGet_assocSet]
      split_ifs with he
      · rfl
      · exact hk
    · intro hk
      have hne : Z.Name ≠ descY := by
        unfold recKey at hk
        rw [hA] at hk
        exact hk
      rw [assocGet_assocSet, if_neg hne]
    · intro _
      unfold skipSecond
      rw [hA]
      trivial
  | some asset =>
    by_cases hE : Z.Equip.getD true = true
    · cases hOld : InventoryGet ch Z.Group with
      | none =>
        have hstep : fortuneWheelEquipFirstPass env (ch, fr, cb) Z
            = (ch, fr, cb) := by
          simp [fortuneWheelEquipFirstPass, hA, hE, hOld]
        rw [hstep]
        refine ⟨hocc, rfl, fun k hk => hk, fun x hx => hx, fun _ => rfl, ?_⟩
        intro hZG
        rw [hZG, hocc] at hOld
        cases hOld
      | some oldItem =>
        have hstep : fortuneWheelEquipFirstPass env (ch, fr, cb) Z
            = (if (List.filter (fun t => t.2)
                  [("Locked item equiped", !canUnlock oldItem),
                   ("InventoryBlockedOrLimited",
                     env.InventoryBlockedOrLimited ch asset),
                   ("InventoryAllow", !env.InventoryAllow ch asset),
                   ("InventoryGroupIsBlocked",
                     env.InventoryGroupIsBlocked ch Z.Group)]).length ≠ 0
               then (ch, assocSet fr asset.Description
                      ((List.filter (fun t => t.2)
                        [("Locked item equiped", !canUnlock oldItem),
                         ("InventoryBlockedOrLimited",
                           env.InventoryBlockedOrLimited ch asset),
                         ("InventoryAllow", !env.InventoryAllow ch asset),
                         ("InventoryGroupIsBlocked",
                           env.InventoryGroupIsBlocked ch Z.Group)]).map
                        (fun t => t.1)), cb)
               else (InventoryRemove ch Z.Group, fr, cb)) := by
          simp [fortuneWheelEquipFirstPass, hA, hE, hOld]
        by_cases hF : (List.filter (fun t => t.2)
            [("Locked item equiped", !canUnlock oldItem),
             ("InventoryBlockedOrLimited",
               env.InventoryBlockedOrLimited ch asset),
             ("InventoryAllow", !env.InventoryAllow ch asset),
             ("InventoryGroupIsBlocked",
               env.InventoryGroupIsBlocked ch Z.Group)]).length ≠ 0
        · rw [if_pos hF] at hstep
          rw [hstep]
          refine ⟨hocc, rfl, ?_, fun x hx => hx, ?_, ?_⟩
          · intro k hk
            rw [assocGet_assocSet]
            split_ifs with he
            · rfl
            · exact hk
          · intro hk
            have hne : asset.Description ≠ descY := by
              unfold recKey at hk
              rw [hA] at hk
              exact hk
            rw [assocGet_assocSet, if_neg hne]
          · intro _
            unfold skipSecond
            rw [hA]
            left
            rw [assocGet_assocSet, if_pos rfl]
            rfl
        · have hZG : Z.Group ≠ G := by
            intro hEq
            rw [hEq, hocc] at hOld
            cases hOld
            apply hF
            simp [hlock]
          rw [if_neg hF] at hstep
          rw [hstep]
          refine ⟨?_, rfl, fun k hk => hk, fun x hx => hx, fun _ => rfl,
            fun hEq => absurd hEq hZG⟩
          show (ch.Appearance.filter _).find? _ = some X
          apply find?_filter_keep _ _ _ _ hocc
          rw [hXG]
          have : (G == Z.Group) = false :=
            beq_eq_false_iff_ne.mpr (fun hEq => hZG hEq.symm)
          simp [this]
    · have hE' : Z.Equip.getD true = false := by
        revert hE
        cases Z.Equip.getD true <;> simp
      have hstep : fortuneWheelEquipFirstPass env (ch, fr, cb) Z
          = (ch, fr, if Z.Group ∈ cb then cb else cb ++ [Z.Group]) := by
        simp [fortuneWheelEquipFirstPass, hA, hE']
      rw [hstep]
      refine ⟨hocc, rfl, fun k hk => hk, ?_, fun _ => rfl, ?_⟩
      · intro x hx
        split_ifs
        · exact hx
        · exact List.mem_append_left _ hx
      · intro _
        unfold skipSecond
        rw [hA]
        right
        split_ifs with hmem
        · exact hmem
        · exact List.mem_append_right _ (List.mem_singleton.mpr rfl)

/-- The clearing-pass step on an item whose slot is held by a locked
occupant, with the three other blockers clear: exactly the single reason
`"Locked item equiped"` is recorded under the asset description, and
nothing else changes. -/
theorem firstPass_step_locked (env : Env) (X : Item) (assetY : Asset)
    (Y : FortuneWheelItem) (ch : Character)
    (fr : List (String × List String)) (cb : List String)
    (hocc : InventoryGet ch Y.Group = some X)
    (hA : env.AssetGet ch.AssetFamily Y.Group Y.Name = some assetY)
    (hlock : canUnlock X = false)
    (hb : env.InventoryBlockedOrLimited ch assetY = false)
    (hal : env.InventoryAllow ch assetY = true)
    (hgb : env.InventoryGroupIsBlocked ch Y.Group = false)
    (hequip : Y.Equip.getD true = true) :
    fortuneWheelEquipFirstPass env (ch, fr, cb) Y
      = (ch, assocSet fr assetY.Description ["Locked item equiped"], cb) := by
  simp [fortuneWheelEquipFirstPass, hA, hequip, hocc, hlock, hb, hal, hgb]

/-- The clearing pass folded over a list, against a locked occupant of
slot `G`: all the per-step invariants of `firstPass_step_inv`, propagated.
-/
theorem firstPass_fold_inv (env : Env) (G descY : String) (X : Item)
    (hXG : X.Asset.Group.Name = G) (hlock : canUnlock X = false) :
    ∀ (M : List FortuneWheelItem) (ch : Character)
      (fr : List (String × List String)) (cb : List String),
      InventoryGet ch G = some X →
      InventoryGet (M.foldl (fortuneWheelEquipFirstPass env) (ch, fr, cb)).1 G
          = some X
      ∧ (M.foldl (fortuneWheelEquipFirstPass env)
          (ch, fr, cb)).1.AssetFamily = ch.AssetFamily
      ∧ (∀ k, (assocGet fr k).isSome = true →
          (assocGet (M.foldl (fortuneWheelEquipFirstPass env)
            (ch, fr, cb)).2.1 k).isSome = true)
      ∧ (∀ x ∈ cb, x ∈ (M.foldl (fortuneWheelEquipFirstPass env)
          (ch, fr, cb)).2.2)
      ∧ ((∀ Z ∈ M, recKey env ch.AssetFamily Z ≠ descY) →
          assocGet (M.foldl (fortuneWheelEquipFirstPass env)
            (ch, fr, cb)).2.1 descY = assocGet fr descY)
      ∧ (∀ Z ∈ M, Z.Group = G →
          skipSecond env ch.AssetFamily
            (M.foldl (fortuneWheelEquipFirstPass env) (ch, fr, cb)).2.1
            (M.foldl (fortuneWheelEquipFirstPass env) (ch, fr, cb)).2.2
            Z) := by
  intro M
  induction M with
  | nil =>
    intro ch fr cb hocc
    exact ⟨hocc, rfl, fun k hk => hk, fun x hx => hx, fun _ => rfl, by simp⟩
  | cons Z rest ih =>
    intro ch fr cb hocc
    obtain ⟨s1, s2, s3, s4, s5, s6⟩ :=
      firstPass_step_inv env G descY X hXG hlock ch fr cb Z hocc
    have hfold : (Z :: rest).foldl (fortuneWheelEquipFirstPass env)
        (ch, fr, cb)
        = rest.foldl (fortuneWheelEquipFirstPass env)
            ((fortuneWheelEquipFirstPass env (ch, fr, cb) Z).1,
             (fortuneWheelEquipFirstPass env (ch, fr, cb) Z).2.1,
             (fortuneWheelEquipFirstPass env (ch, fr, cb) Z).2.2) := by
      rw [List.foldl_cons]
    obtain ⟨i1, i2, i3, i4, i5, i6⟩ := ih _ _ _ s1
    rw [hfold]
    refine ⟨i1, i2.trans s2, fun k hk => i3 k (s3 k hk),
      fun x hx => i4 x (s4 x hx), ?_, ?_⟩
    · intro hkeys
      have hZkey := hkeys Z (List.mem_cons_self _ _)
      have hrest : ∀ Z' ∈ rest,
          recKey env (fortuneWheelEquipFirstPass env
            (ch, fr, cb) Z).1.AssetFamily Z' ≠ descY := by
        intro Z' hZ'
        rw [s2]
        exact hkeys Z' (List.mem_cons_of_mem _ hZ')
      rw [i5 hrest, s5 hZkey]
    · intro Z' hZ' hZG
      rcases List.mem_cons.mp hZ' with h | h
      · subst h
        exact skipSecond_mono env ch.AssetFamily _ _ _ _ Z' (s6 hZG) i3 i4
      · have hi := i6 Z' h hZG
        rw [s2] at hi
        exact hi

/-- Writing an instance back into slot `gname` only touches the trailing
freshly equipped entry when the rest of the appearance holds no `gname`
item. -/
theorem setSlotItem_shape (c : Character) (gname : String) (it : Item)
    (A : List Item) (w : Item) (hA : c.Appearance = A ++ [w])
    (hfree : ∀ y ∈ A, (y.Asset.Group.Name == gname) = false) :
    (setSlotItem c gname it).Appearance
      = A ++ [if w.Asset.Group.Name == gname then it else w] := by
  show c.Appearance.map _ = _
  rw [hA, List.map_append]
  have hid : A.map (fun y => if y.Asset.Group.Name == gname then it else y)
      = A.map id := List.map_congr_left (fun y hy => by simp [hfree y hy])
  rw [hid, List.map_id]
  rfl

/-- A slot lookup through an appearance of the form `A ++ [w]` that hits
within `A`. -/
theorem InventoryGet_of_shape (c : Character) (A : List Item) (w : Item)
    (G : String) (X : Item) (hA : c.Appearance = A ++ [w])
    (hfind : A.find? (fun it => it.Asset.Group.Name == G) = some X) :
    InventoryGet c G = some X := by
  unfold InventoryGet
  rw [hA]
  exact find?_append_left _ _ _ _ hfind

/-- Three consecutive slot write-backs to `gname` (the equip pass's
post-processing) keep the `G` occupant found inside the untouched
prefix. -/
theorem setSlot3_preserve (c : Character) (gname G : String) (X : Item)
    (A : List Item) (w : Item) (hA : c.Appearance = A ++ [w])
    (hfree : ∀ y ∈ A, (y.Asset.Group.Name == gname) = false)
    (hfind : A.find? (fun it => it.Asset.Group.Name == G) = some X)
    (i1 i2 i3 : Item) :
    InventoryGet (setSlotItem (setSlotItem (setSlotItem c gname i1) gname i2)
      gname i3) G = some X := by
  have h1 := setSlotItem_shape c gname i1 A w hA hfree
  have h2 := setSlotItem_shape (setSlotItem c gname i1) gname i2 A _ h1 hfree
  have h3 := setSlotItem_shape (setSlotItem (setSlotItem c gname i1) gname i2)
    gname i3 A _ h2 hfree
  exact InventoryGet_of_shape _ A _ G X h3 hfind

/-- One equip-pass step (no callbacks): a locked `G` occupant survives,
because an item targeting `G` is skipped and an item targeting another
slot only touches that other slot. -/
theorem secondPass_step_preserve (env : Env)
    (fr : List (String × List String)) (cb : List String)
    (G : String) (X : Item) (hXG : X.Asset.Group.Name = G)
    (ch : Character) (Z : FortuneWheelItem)
    (hocc : InventoryGet ch G = some X)
    (hskip : Z.Group = G → skipSecond env ch.AssetFamily fr cb Z)
    (hcb : Z.ItemCallback = none) :
    InventoryGet (fortuneWheelEquipSecondPass env fr cb none ch Z) G = some X
    ∧ (fortuneWheelEquipSecondPass env fr cb none ch Z).AssetFamily
        = ch.AssetFamily := by
  cases hA : env.AssetGet ch.AssetFamily Z.Group Z.Name with
  | none =>
    have hstep : fortuneWheelEquipSecondPass env fr cb none ch Z = ch := by
      simp [fortuneWheelEquipSecondPass, hA]
    rw [hstep]
    exact ⟨hocc, rfl⟩
  | some asset =>
    by_cases hsk : (assocGet fr asset.Description).isSome = true ∨ Z.Group ∈ cb
    · have hstep : fortuneWheelEquipSecondPass env fr cb none ch Z = ch := by
        simp only [fortuneWheelEquipSecondPass, hA]
        rw [if_pos hsk]
      rw [hstep]
      exact ⟨hocc, rfl⟩
    · have hZG : Z.Group ≠ G := by
        intro hEq
        apply hsk
        have hs := hskip hEq
        unfold skipSecond at hs
        rw [hA] at hs
        exact hs
      have hfreeA : ∀ y ∈ ch.Appearance.filter
          (fun it => !(it.Asset.Group.Name == Z.Group)),
          (y.Asset.Group.Name == Z.Group) = false := by
        intro y hy
        have := List.of_mem_filter hy
        simpa using this
      have hfindA : (ch.Appearance.filter
          (fun it => !(it.Asset.Group.Name == Z.Group))).find?
            (fun it => it.Asset.Group.Name == G) = some X := by
        apply find?_filter_keep _ _ _ _ hocc
        rw [hXG]
        have hne : (G == Z.Group) = false :=
          beq_eq_false_iff_ne.mpr (fun hEq => hZG hEq.symm)
        simp [hne]
      cases hN : InventoryGet (CharacterAppearanceSetItem ch Z.Group asset
          (match Z.Color with
           | some c => c
           | none => asset.DefaultColor)) Z.Group with
      | none =>
        have hstep : fortuneWheelEquipSecondPass env fr cb none ch Z
            = CharacterAppearanceSetItem ch Z.Group asset
                (match Z.Color with
                 | some c => c
                 | none => asset.DefaultColor) := by
          simp only [fortuneWheelEquipSecondPass, hA]
          rw [if_neg hsk]
          simp only [hN]
        rw [hstep]
        refine ⟨?_, rfl⟩
        exact InventoryGet_of_shape _ _ _ G X rfl hfindA
      | some n0 =>
        constructor
        · simp only [fortuneWheelEquipSecondPass, hA]
          rw [if_neg hsk]
          simp only [hN, hcb]
          exact setSlot3_preserve _ Z.Group G X _ _ rfl hfreeA hfindA _ _ _
        · simp only [fortuneWheelEquipSecondPass, hA]
          rw [if_neg hsk]
          simp only [hN, hcb]
          rfl

/-- The equip pass folded over a list of callback-free items, all of whose
`G`-targeting members are skipped: the locked `G` occupant survives. -/
theorem secondPass_fold_preserve (env : Env)
    (fr : List (String × List String)) (cb : List String)
    (G : String) (X : Item) (hXG : X.Asset.Group.Name = G) :
    ∀ (M : List FortuneWheelItem) (ch : Character),
      InventoryGet ch G = some X →
      (∀ Z ∈ M, Z.ItemCallback = none) →
      (∀ Z ∈ M, Z.Group = G → skipSecond env ch.AssetFamily fr cb Z) →
      InventoryGet (M.foldl (fortuneWheelEquipSecondPass env fr cb none) ch)
        G = some X := by
  intro M
  induction M with
  | nil => intro ch hocc _ _; exact hocc
  | cons Z rest ih =>
    intro ch hocc hcbs hskips
    rw [List.foldl_cons]
    obtain ⟨p1, p2⟩ := secondPass_step_preserve env fr cb G X hXG ch Z hocc
      (hskips Z (List.mem_cons_self _ _)) (hcbs Z (List.mem_cons_self _ _))
    apply ih _ p1 (fun Z' h => hcbs Z' (List.mem_cons_of_mem _ h))
    intro Z' h hZG
    have hs := hskips Z' (List.mem_cons_of_mem _ h) hZG
    rw [p2]
    exact hs

/-- C6: when an item `Y` of the list targets a slot held by an occupant
`X` that cannot be unlocked (the other removal blockers not firing for
`Y`, item callbacks absent, and no other list item sharing `Y`'s
failure-record key), `fortuneWheelEquip` records exactly the single
failure reason `"Locked item equiped"` for `Y`, leaves `X` equipped in the
slot, and does not equip `Y` in the second pass. -/
theorem fortuneWheelEquip_locked_slot
    (env : Env) (name : String) (L1 L2 : List FortuneWheelItem)
    (Y : FortuneWheelItem) (stripLevel : Nat) (ch0 : Character)
    (X : Item) (assetY : Asset)
    (hvalid : (ch0.IsSimple || ch0.IsPlayer) = true)
    (hlvl : stripLevel ≤ 4)
    (hA : env.AssetGet ch0.AssetFamily Y.Group Y.Name = some assetY)
    (hocc : InventoryGet ch0 Y.Group = some X)
    (hcat : X.Asset.Group.Category ≠ "Appearance")
    (hlock : canUnlock X = false)
    (hequip : Y.Equip.getD true = true)
    (hb : ∀ c : Character, env.InventoryBlockedOrLimited c assetY = false)
    (hal : ∀ c : Character, env.InventoryAllow c assetY = true)
    (hgb : ∀ c : Character, env.InventoryGroupIsBlocked c Y.Group = false)
    (hkeys : ∀ Z ∈ L1 ++ L2,
      recKey env ch0.AssetFamily Z ≠ assetY.Description)
    (hnocb : ∀ Z ∈ L1 ++ Y :: L2, Z.ItemCallback = none) :
    ∃ ch' failRec,
      fortuneWheelEquip env name (.arr (L1 ++ Y :: L2)) stripLevel none none
        ch0 = .ok (ch', failRec)
      ∧ assocGet failRec assetY.Description = some ["Locked item equiped"]
      ∧ InventoryGet ch' Y.Group = some X := by
  have hXG : X.Asset.Group.Name = Y.Group := by
    have h := hocc
    unfold InventoryGet at h
    have h2 := List.find?_some h
    simpa using h2
  obtain ⟨pred, hpred⟩ := getStripCondition_ok stripLevel hlvl ch0
  have hstrip : characterStrip stripLevel (some ch0)
      = .ok { ch0 with Appearance := ch0.Appearance.filter (fun it =>
          !(it.Asset.Group.AllowNone
            && (it.Asset.Group.Category == "Appearance")
            && pred it.Asset)) } := by
    simp [characterStrip, hvalid, hpred]
  have hC'occ : InventoryGet
      { ch0 with Appearance := ch0.Appearance.filter (fun it =>
          !(it.Asset.Group.AllowNone
            && (it.Asset.Group.Category == "Appearance")
            && pred it.Asset)) } Y.Group = some X := by
    show (ch0.Appearance.filter (fun it =>
        !(it.Asset.Group.AllowNone
          && (it.Asset.Group.Category == "Appearance")
          && pred it.Asset))).find?
      (fun it => it.Asset.Group.Name == Y.Group) = some X
    apply find?_filter_keep _ _ _ _ hocc
    have hbeq : (X.Asset.Group.Category == "Appearance") = false :=
      beq_eq_false_iff_ne.mpr hcat
    simp [hbeq]
  obtain ⟨⟨ch1, fr1, cb1⟩, hst1⟩ :
      ∃ s, L1.foldl (fortuneWheelEquipFirstPass env)
        ({ ch0 with Appearance := ch0.Appearance.filter (fun it =>
            !(it.Asset.Group.AllowNone
              && (it.Asset.Group.Category == "Appearance")
              && pred it.Asset)) }, [], []) = s := ⟨_, rfl⟩
  obtain ⟨a1, a2, a3, a4, a5, a6⟩ :=
    firstPass_fold_inv env Y.Group assetY.Description X hXG hlock L1
      { ch0 with Appearance := ch0.Appearance.filter (fun it =>
          !(it.Asset.Group.AllowNone
            && (it.Asset.Group.Category == "Appearance")
            && pred it.Asset)) } [] [] hC'occ
  rw [hst1] at a1 a2 a3 a4 a5 a6
  dsimp only at a1 a2 a3 a4 a5 a6
  have hfam1 : ch1.AssetFamily = ch0.AssetFamily := a2
  have hst2 : fortuneWheelEquipFirstPass env (ch1, fr1, cb1) Y
      = (ch1, assocSet fr1 assetY.Description ["Locked item equiped"],
         cb1) :=
    firstPass_step_locked env X assetY Y ch1 fr1 cb1 a1
      (by rw [hfam1]; exact hA) hlock (hb _) (hal _) (hgb _) hequip
  obtain ⟨⟨chF, frF, cbF⟩, hstF⟩ :
      ∃ s, L2.foldl (fortuneWheelEquipFirstPass env)
        (ch1, assocSet fr1 assetY.Description ["Locked item equiped"], cb1)
        = s := ⟨_, rfl⟩
  obtain ⟨c1, c2, c3, c4, c5, c6⟩ :=
    firstPass_fold_inv env Y.Group assetY.Description X hXG hlock L2 ch1
      (assocSet fr1 assetY.Description ["Locked item equiped"]) cb1 a1
  rw [hstF] at c1 c2 c3 c4 c5 c6
  dsimp only at c1 c2 c3 c4 c5 c6
  have hfamF : chF.AssetFamily = ch0.AssetFamily := c2.trans hfam1
  have hfrY : assocGet
      (assocSet fr1 assetY.Description ["Locked item equiped"])
      assetY.Description = some ["Locked item equiped"] := by
    rw [assocGet_assocSet, if_pos rfl]
  have hfrF : assocGet frF assetY.Description
      = some ["Locked item equiped"] := by
    have hkeys2 : ∀ Z ∈ L2,
        recKey env ch1.AssetFamily Z ≠ assetY.Description := by
      intro Z hZ
      rw [hfam1]
      exact hkeys Z (List.mem_append_right _ hZ)
    rw [c5 hkeys2]
    exact hfrY
  have hmono1 : ∀ k, (assocGet fr1 k).isSome = true →
      (assocGet (assocSet fr1 assetY.Description ["Locked item equiped"])
        k).isSome = true := by
    intro k hk
    rw [assocGet_assocSet]
    split_ifs
    · rfl
    · exact hk
  have hskipAll : ∀ Z ∈ L1 ++ Y :: L2, Z.Group = Y.Group →
      skipSecond env chF.AssetFamily frF cbF Z := by
    intro Z hZ hZG
    rcases List.mem_append.mp hZ with h1 | h12
    · have hskip1 := a6 Z h1 hZG
      have hskip2 := skipSecond_mono env _ fr1
        (assocSet fr1 assetY.Description ["Locked item equiped"]) cb1 cb1 Z
        hskip1 hmono1 (fun x hx => hx)
      have hskip3 := skipSecond_mono env _ _ frF _ cbF Z hskip2 c3 c4
      rw [hfamF]
      exact hskip3
    · rcases List.mem_cons.mp h12 with h2 | h3
      · subst h2
        unfold skipSecond
        rw [hfamF, hA]
        exact Or.inl (by rw [hfrF]; rfl)
      · have hc := c6 Z h3 hZG
        rw [c2]
        exact hc
  have hsecond := secondPass_fold_preserve env frF cbF Y.Group X hXG
    (L1 ++ Y :: L2) chF c1 hnocb hskipAll
  have hfirst : (L1 ++ Y :: L2).foldl (fortuneWheelEquipFirstPass env)
      ({ ch0 with Appearance := ch0.Appearance.filter (fun it =>
          !(it.Asset.Group.AllowNone
            && (it.Asset.Group.Category == "Appearance")
            && pred it.Asset)) }, [], []) = (chF, frF, cbF) := by
    rw [List.foldl_append, hst1, List.foldl_cons, hst2, hstF]
  have hmain : fortuneWheelEquip env name (.arr (L1 ++ Y :: L2)) stripLevel
      none none ch0
      = .ok ((L1 ++ Y :: L2).foldl
          (fortuneWheelEquipSecondPass env frF cbF none) chF, frF) := by
    simp only [fortuneWheelEquip, hstrip]
    rw [hfirst]
  exact ⟨_, _, hmain, hfrF, hsecond⟩

/-- Witness for `fortuneWheelEquip_locked_slot` on the concrete
locked-slot scenario. -/
theorem fortuneWheelEquip_locked_slot_witness :
    ∃ ch' failRec,
      fortuneWheelEquip lockTestEnv "wheel" (.arr ([] ++ lockTestY :: []))
        0 none none lockTestChar = .ok (ch', failRec)
      ∧ assocGet failRec lockAssetY.Description
          = some ["Locked item equiped"]
      ∧ InventoryGet ch' lockTestY.Group = some lockTestX :=
  fortuneWheelEquip_locked_slot lockTestEnv "wheel" [] [] lockTestY 0
    lockTestChar lockTestX lockAssetY rfl (by decide) rfl rfl (by decide)
    rfl rfl (fun _ => rfl) (fun _ => rfl) (fun _ => rfl)
    (by intro Z hZ; simp at hZ)
    (by intro Z hZ; simp at hZ; subst hZ; rfl)

end MBS
